import Mathlib

/-!
Shallow embedding of the permission resolution, layer-tree traversal and
introspection core of the qwc_services config generator, together with
theorems settling the frozen claims about its specification.

The definitions mirror the Python sources under
`config-generator/` and `config-generator-agent/`:
  * `permissions_query.py` (grant store queries, PostGIS introspection),
  * `data_service_config.py` (`_dataset_permissions`),
  * `ogc_service_config.py` (`collect_wms_layers`, `wms_permissions`,
    `collect_wms_layer_permissions`, `collect_wfs_layers`),
  * `dataproduct_service_config.py` (`_collect_layer_permissions`,
    `_layer_in_ows`),
  * `search_service_config.py` (`_facets`),
  * `map_viewer_config.py` (`EDIT_GEOM_TYPES`, `edit_config`),
  * `qgs_writer.py` (`collect_layers`, extent resolution).
-/

namespace QWC

/-! ## Grant store model (`permissions_query.py`) -/

/-- A row of the `gdi_resource` table: any permissionable entity. -/
structure GdiResource where
  gdi_oid : Nat
  table_name : String
  name : String
deriving DecidableEq, Repr

/-- A row of the `resource_permission` table joined with its role name:
a grant `(role, resource, read flag, write flag, priority)`. -/
structure ResourcePermission where
  role : String
  resource : GdiResource
  read : Bool
  write : Bool
  priority : Int
deriving DecidableEq, Repr

/-- Name of the public role (`PermissionsQuery.PUBLIC_ROLE_NAME`). -/
def publicRole : String := "public"

/-- `PermissionsQuery.role_permissions_query`: all grants of a role,
in the encounter order of the underlying result set. -/
def rolePermissionsQuery (grants : List ResourcePermission) (role : String) :
    List ResourcePermission :=
  grants.filter (fun p => p.role = role)

/-- `PermissionsQuery.resource_ids`: set of resource ids for which `role`
holds any grant over a resource whose type tag is in `table_names`. -/
def resourceIds (grants : List ResourcePermission) (table_names : List String)
    (role : String) : Finset Nat :=
  (((rolePermissionsQuery grants role).filter
    (fun p => p.resource.table_name ∈ table_names)).map
      (fun p => p.resource.gdi_oid)).toFinset

/-- Insert a grant into a list sorted by descending priority
(`ORDER BY priority DESC`). -/
def insertByPriorityDesc (p : ResourcePermission) :
    List ResourcePermission → List ResourcePermission
  | [] => [p]
  | q :: qs =>
    if q.priority < p.priority then p :: q :: qs
    else q :: insertByPriorityDesc p qs

/-- Sort grants by descending priority. -/
def sortByPriorityDesc (l : List ResourcePermission) :
    List ResourcePermission :=
  l.foldr insertByPriorityDesc []

/-- `PermissionsQuery.resource_permissions`: grants of a role for one
resource type tag (and optionally one resource name), ordered by
descending priority. -/
def resourcePermissions (grants : List ResourcePermission)
    (table_name : String) (resource_name : Option String) (role : String) :
    List ResourcePermission :=
  sortByPriorityDesc
    (((rolePermissionsQuery grants role).filter
      (fun p => p.resource.table_name = table_name)).filter
        (fun p => match resource_name with
          | none => true
          | some n => p.resource.name = n))

/-- The inline computation of `wms_permissions` / `wfs_permissions` /
`_dataset_permissions`: a role's exclusive permitted ids, i.e. its
permitted ids minus the public ids unless the role is the public role. -/
def exclusiveResourceIds (grants : List ResourcePermission)
    (table_names : List String) (role : String) : Finset Nat :=
  if role ≠ publicRole then
    resourceIds grants table_names role \ resourceIds grants table_names publicRole
  else
    resourceIds grants table_names role

/-! ## Edit dataset permissions (`data_service_config.py`) -/

/-- A `data_source` row (only the fields the permission walk reads). -/
structure DataSourceE where
  gdi_oid : Nat
  connection_type : String
deriving DecidableEq, Repr

/-- A `data_set` row. -/
structure DataSetE where
  gdi_oid : Nat
  data_source : DataSourceE
deriving DecidableEq, Repr

/-- A `data_set_view_attributes` row. -/
structure AttributeE where
  gdi_oid : Nat
  name : String
deriving DecidableEq, Repr

/-- A `data_set_view` row with its ordered attributes. -/
structure DataSetViewE where
  gdi_oid : Nat
  data_set : DataSetE
  attributes : List AttributeE
deriving DecidableEq, Repr

/-- A `data_set_edit` row. -/
structure DataSetEditE where
  gdi_oid : Nat
  name : String
  data_set_view : DataSetViewE
deriving DecidableEq, Repr

/-- Resource type tags required for editing
(`_dataset_permissions`, lines 183-189). -/
def editTableNames : List String :=
  ["data_set_edit", "data_set_view", "data_set", "data_source",
   "data_set_view_attributes"]

/-- The `writeable_datasets` loop of `_dataset_permissions` (lines 205-215):
fold over the priority-ordered edit grants, adding the resource name
whenever the grant's write flag is set and the name is not yet present. -/
def writeableDatasets (grants : List ResourcePermission) (role : String) :
    Finset String :=
  (resourcePermissions grants "data_set_edit" none role).foldl
    (fun acc p =>
      if p.write = true ∧ p.resource.name ∉ acc then
        insert p.resource.name acc
      else acc)
    ∅

/-- One entry of the `data_datasets` permission list. -/
structure DatasetPermEntry where
  name : String
  attributes : List String
  writable : Bool
  creatable : Bool
  readable : Bool
  updatable : Bool
  deletable : Bool
deriving DecidableEq, Repr

/-- Body of the `_dataset_permissions` loop (lines 219-256) for a single
`data_set_edit` row: `none` models `continue` / not emitting the entry. -/
def datasetPermEntry? (grants : List ResourcePermission) (role : String)
    (e : DataSetEditE) : Option DatasetPermEntry :=
  let permitted_ids := resourceIds grants editTableNames role
  let public_ids := resourceIds grants editTableNames publicRole
  let role_and_public_ids := permitted_ids ∪ public_ids
  let permitted_ids' :=
    if role ≠ publicRole then permitted_ids \ public_ids else permitted_ids
  let dsv := e.data_set_view
  let ds := dsv.data_set
  let src := ds.data_source
  if ¬ (e.gdi_oid ∈ role_and_public_ids ∧
        dsv.gdi_oid ∈ role_and_public_ids ∧
        ds.gdi_oid ∈ role_and_public_ids ∧
        src.gdi_oid ∈ role_and_public_ids) then
    none
  else
    let attrs := (dsv.attributes.filter
      (fun a => a.gdi_oid ∈ permitted_ids')).map (fun a => a.name)
    let writable : Bool := decide (e.name ∈ writeableDatasets grants role)
    if attrs ≠ [] ∨ writable = true then
      some ⟨e.name, attrs, writable, writable, true, writable, writable⟩
    else
      none

/-- `DataServiceConfig._dataset_permissions`: edit dataset permissions of a
role. `edits` is the `data_set_edit` query result (ordered by name). -/
def datasetPermissions (grants : List ResourcePermission)
    (edits : List DataSetEditE) (role : String) : List DatasetPermEntry :=
  edits.filterMap (datasetPermEntry? grants role)

/-- Follows the spec's words, for comparison with the source: the
"highest-priority matching edit grant" of a role for an edit dataset,
i.e. the first element of the matching grants sorted by descending
priority. -/
def specHighestMatchingEditGrant (grants : List ResourcePermission)
    (role : String) (dataset : String) : Option ResourcePermission :=
  (resourcePermissions grants "data_set_edit" (some dataset) role).head?

/-! ## Layer tree model (`ows_layer` hierarchy) -/

/-- The data-description chain hanging off an `ows_layer_data` row:
its `data_set_view`, the view's `data_set` and the set's `data_source`,
each with its GDI resource id; attributes as `(gdi_oid, name)` pairs. -/
structure ViewChain where
  viewOid : Nat
  dataSetOid : Nat
  dataSourceOid : Nat
  connectionType : String
  attributes : List (Nat × String)
deriving DecidableEq, Repr

/-- The polymorphic layer hierarchy: `Group` nodes with ordered children,
`Data` leaves with their view chain, optional info template resource id
and placement transparency. -/
inductive Layer where
  | group (name : String) (oid : Nat) (facade : Bool) (children : List Layer)
  | data (name : String) (oid : Nat) (view : ViewChain)
      (templateinfo : Option Nat) (transparency : Int)

/-- Name of a layer node. -/
def Layer.name : Layer → String
  | .group n _ _ _ => n
  | .data n _ _ _ _ => n

/-- One entry of the flat WMS layer permission list
(`collect_wms_layer_permissions`): the keys of the emitted ordered dict. -/
structure WmsPermEntry where
  name : String
  attributes : Option (List String)
  info_template : Option Bool
deriving DecidableEq, Repr

/-- Data-layer branch of `collect_wms_layer_permissions` (lines 481-531):
`rp` is the role's (exclusive) permitted id set, `pub` the public id set;
for a database-backed layer the stored attribute list also receives the
appended geometry pseudo-attribute (the source appends to the
already-stored list, lines 498-505). -/
def wmsPermDataEntries (n : String) (oid : Nat) (v : ViewChain)
    (ti : Option Nat) (rp pub : Finset Nat) : List WmsPermEntry :=
  if oid ∈ rp ∧ v.viewOid ∈ rp ∧ v.dataSetOid ∈ rp ∧
      v.dataSourceOid ∈ rp ∪ pub then
    let attrs :=
      if v.connectionType = "database" then
        some (((v.attributes.filter (fun a => a.1 ∈ rp)).map
          (fun a => a.2)) ++ ["geometry"])
      else none
    [⟨n, attrs, ti.map (fun t => decide (t ∈ rp))⟩]
  else
    match ti with
    | some t =>
      if oid ∈ pub ∧ v.viewOid ∈ pub ∧ v.dataSetOid ∈ pub ∧
          v.dataSourceOid ∈ pub ∧ t ∈ rp then
        [⟨n, none, some true⟩]
      else []
    | none => []

mutual

/-- `OGCServiceConfig.collect_wms_layer_permissions`: flat list of permitted
WMS layers for a layer subtree; a group is emitted before its permitted
sub layers, and only when at least one sub layer is permitted. -/
def collectWmsLayerPermissions (rp pub : Finset Nat) :
    Layer → List WmsPermEntry
  | .group n _ _ cs =>
    let subs := collectWmsLayerPermissionsList rp pub cs
    if subs ≠ [] then ⟨n, none, none⟩ :: subs else []
  | .data n oid v ti _ => wmsPermDataEntries n oid v ti rp pub

/-- Concatenation of `collect_wms_layer_permissions` over a child list. -/
def collectWmsLayerPermissionsList (rp pub : Finset Nat) :
    List Layer → List WmsPermEntry
  | [] => []
  | c :: cs =>
    collectWmsLayerPermissions rp pub c ++
      collectWmsLayerPermissionsList rp pub cs

end

mutual

/-- `DataproductServiceConfig._collect_layer_permissions`: walks a layer
subtree threading the accumulated set of permitted dataproduct names; a
data layer adds its name when its own id is permitted, a group adds its
name when, after recursing, at least one child's name is in the set. -/
def collectLayerPermissionsDP (permitted : Finset Nat) :
    Layer → Finset String → Finset String
  | .group n _ _ cs, s =>
    let p := collectLayerPermissionsDPList permitted cs s
    if p.2 = true then insert n p.1 else p.1
  | .data n oid _ _ _, s =>
    if oid ∈ permitted then insert n s else s

/-- Child loop of `_collect_layer_permissions`: returns the updated name
set and whether any child's name ended up in the set (non-empty
`sublayers`). -/
def collectLayerPermissionsDPList (permitted : Finset Nat) :
    List Layer → Finset String → Finset String × Bool
  | [], s => (s, false)
  | c :: cs, s =>
    let s1 := collectLayerPermissionsDP permitted c s
    let b1 : Bool := decide (c.name ∈ s1)
    let p := collectLayerPermissionsDPList permitted cs s1
    (p.1, b1 || p.2)

end

mutual

/-- All layer names occurring in a subtree, root first. -/
def layerNames : Layer → List String
  | .group n _ _ cs => n :: layerNamesList cs
  | .data n _ _ _ _ => [n]

/-- All layer names occurring in a forest. -/
def layerNamesList : List Layer → List String
  | [] => []
  | c :: cs => layerNames c ++ layerNamesList cs

end

mutual

/-- Whether a subtree contains a data layer whose own id is permitted:
the recursive filtering of `_collect_layer_permissions` keeps exactly
such subtrees. -/
def hasPermittedDataDescendant (permitted : Finset Nat) : Layer → Bool
  | .group _ _ _ cs => hasPermittedDataDescendantList permitted cs
  | .data _ oid _ _ _ => decide (oid ∈ permitted)

/-- Whether a forest contains a permitted data layer. -/
def hasPermittedDataDescendantList (permitted : Finset Nat) :
    List Layer → Bool
  | [] => false
  | c :: cs =>
    hasPermittedDataDescendant permitted c ||
      hasPermittedDataDescendantList permitted cs

end

mutual

/-- The set of names a `_collect_layer_permissions` walk adds for a
subtree (its contribution on top of the incoming accumulated set). -/
def dpIncludedNames (permitted : Finset Nat) : Layer → Finset String
  | .group n _ _ cs =>
    if hasPermittedDataDescendantList permitted cs = true then
      insert n (dpIncludedNamesList permitted cs)
    else dpIncludedNamesList permitted cs
  | .data n oid _ _ _ => if oid ∈ permitted then {n} else ∅

/-- The set of names a `_collect_layer_permissions` walk adds for a
forest. -/
def dpIncludedNamesList (permitted : Finset Nat) : List Layer → Finset String
  | [] => ∅
  | c :: cs =>
    dpIncludedNames permitted c ∪ dpIncludedNamesList permitted cs

end

/-! ## Search facets (`search_service_config.py`, `_facets`) -/

/-- One entry of the `facets` resource list. -/
structure SearchEntry where
  name : String
  filter_word : String
  default : Bool
deriving DecidableEq, Repr

/-- A searchable `data_set_view` as consumed by `_facets`: its facet
label, filter word and searchable tri-state (0 = off, 2 = default-on). -/
structure ViewFacet where
  facet : String
  filter_word : String
  searchable : Nat
deriving DecidableEq, Repr

/-- The two fixed baseline entries prepended by `_facets` (lines 68-79). -/
def baselineSearches : List SearchEntry :=
  [⟨"foreground", "Karte", true⟩, ⟨"background", "Hintergrundkarte", false⟩]

/-- Lookup in the insertion-ordered `facets` dict. -/
def facetsLookup (m : List (String × List SearchEntry)) (k : String) :
    Option (List SearchEntry) :=
  match m with
  | [] => none
  | kv :: rest => if kv.1 = k then some kv.2 else facetsLookup rest k

/-- Replace the value of the first matching key in the `facets` dict. -/
def facetsUpdate (m : List (String × List SearchEntry)) (k : String)
    (v : List SearchEntry) : List (String × List SearchEntry) :=
  match m with
  | [] => []
  | kv :: rest =>
    if kv.1 = k then (kv.1, v) :: rest else kv :: facetsUpdate rest k v

/-- The `feature_search` entry built for a searchable view (lines
102-107). -/
def fsEntry (v : ViewFacet) : SearchEntry :=
  ⟨v.facet, v.filter_word, decide (v.searchable = 2)⟩

/-- Loop body of `_facets` (lines 99-118) for one `data_set_view` row:
threads the `searches` list and the `facets` dict. -/
def facetsStep (st : List SearchEntry × List (String × List SearchEntry))
    (v : ViewFacet) : List SearchEntry × List (String × List SearchEntry) :=
  if v.searchable ≠ 0 then
    let st1 :=
      if (facetsLookup st.2 v.facet).isNone then
        (st.1 ++ [fsEntry v], st.2 ++ [(v.facet, [fsEntry v])])
      else st
    let entries := (facetsLookup st1.2 v.facet).getD []
    if entries.all (fun e => e.filter_word ≠ v.filter_word) then
      (st1.1 ++ [fsEntry v],
       facetsUpdate st1.2 v.facet (entries ++ [fsEntry v]))
    else st1
  else st

/-- `SearchServiceConfig._facets`: the generated search facet list for a
sequence of dataset views. -/
def facetsBuild (views : List ViewFacet) : List SearchEntry :=
  (views.foldl facetsStep (baselineSearches, [])).1

/-- Follows the spec's words, for comparison with the source: keep, in
first-seen order, the first searchable view for each distinct
`(facet, filter_word)` pair. -/
def specDedupFirstSeen : List ViewFacet → List (String × String) →
    List SearchEntry
  | [], _ => []
  | v :: vs, seen =>
    if v.searchable ≠ 0 ∧ (v.facet, v.filter_word) ∉ seen then
      fsEntry v :: specDedupFirstSeen vs ((v.facet, v.filter_word) :: seen)
    else
      specDedupFirstSeen vs seen

/-- Proof-infrastructure invariant: the `facets` dict records exactly the
`(facet, filter_word)` pairs already appended. -/
def FacetsInv (m : List (String × List SearchEntry))
    (seen : List (String × String)) : Prop :=
  ∀ k w, (k, w) ∈ seen ↔
    ∃ es, facetsLookup m k = some es ∧ ∃ e ∈ es, e.filter_word = w

/-! ## Schema introspection and edit constraints
(`permissions_query.py`, `map_viewer_config.py`) -/

/-- A constraint value: numeric constraints are exact numbers in the
model, patterns are strings. -/
inductive CVal where
  | num (q : ℚ)
  | str (s : String)
deriving DecidableEq, Repr

/-- Python truthiness of a nullable integer column value. -/
def truthyInt : Option ℤ → Bool
  | none => false
  | some v => decide (v ≠ 0)

/-- Constraint derivation of `attribute_metadata` (lines 227-252) for one
`information_schema.columns` row, as `(final data type, constraints)`:
the `numeric` branch with a null scale raises in the source and is
caught by the surrounding handler, which resets the data type to
`'text'` with the constraints dict still empty. -/
def attributeMetadataRow (dt : String) (char_max num_prec num_scale : Option ℤ) :
    String × List (String × CVal) :=
  if (dt = "character" ∨ dt = "character varying") ∧ truthyInt char_max then
    match char_max with
    | some m => (dt, [("maxlength", CVal.num m)])
    | none => (dt, [])
  else if dt = "double precision" ∨ dt = "real" then
    (dt, [("pattern", CVal.str "[0-9]+([\\.,][0-9]+)?")])
  else if dt = "numeric" ∧ truthyInt num_prec then
    match num_prec, num_scale with
    | some p, some s =>
      let step : ℚ := (10 : ℚ) ^ (-s)
      let max_value : ℚ := (10 : ℚ) ^ (p - s) - step
      (dt,
        [("numeric_precision", CVal.num p), ("numeric_scale", CVal.num s),
         ("min", CVal.num (-max_value)), ("max", CVal.num max_value),
         ("step", CVal.num step)])
    | _, _ => ("text", [])
  else if dt = "smallint" then
    (dt, [("min", CVal.num (-32768)), ("max", CVal.num 32767)])
  else if dt = "integer" then
    (dt, [("min", CVal.num (-2147483648)), ("max", CVal.num 2147483647)])
  else if dt = "bigint" then
    (dt,
      [("min", CVal.num (-9223372036854775808)),
       ("max", CVal.num 9223372036854775807)])
  else
    (dt, [])

/-- An `information_schema.columns` row as read by `attribute_metadata`. -/
structure ColumnRow where
  data_type : String
  character_maximum_length : Option ℤ
  numeric_precision : Option ℤ
  numeric_scale : Option ℤ
deriving DecidableEq, Repr

/-- `PermissionsQuery.attribute_metadata`: an erroring backing store is
caught, logged and yields the default `'text'` type with no
constraints; an empty result set keeps the `'text'` default. -/
def attributeMetadata (store : Except String (Option ColumnRow)) :
    String × List (String × CVal) :=
  match store with
  | .error _ => ("text", [])
  | .ok none => ("text", [])
  | .ok (some row) =>
    attributeMetadataRow row.data_type row.character_maximum_length
      row.numeric_precision row.numeric_scale

/-- The info dict returned by `postgis_metadata`: every key is optional
because each is only set when the corresponding catalog row exists. -/
structure PgMeta where
  primary_key : Option String
  geometry_column : Option String
  geometry_type : Option String
  srid : Option Int
deriving DecidableEq, Repr

/-- The empty info dict. -/
def PgMeta.empty : PgMeta := ⟨none, none, none, none⟩

/-- A `geometry_columns` catalog row. -/
structure GeomRow where
  f_geometry_column : String
  srid : Int
  type : String
deriving DecidableEq, Repr

/-- `PermissionsQuery.postgis_metadata`: folds the primary-key rows and
the geometry-columns rows into the info dict; a connection or query
error is caught, logged and yields the dict built so far — the model
conservatively charges the whole query to the store, so an erroring
store yields the empty dict and never propagates. -/
def postgisMetadata (store : Except String (List String × List GeomRow)) :
    PgMeta :=
  match store with
  | .error _ => PgMeta.empty
  | .ok (pkRows, geomRows) =>
    let withPk := pkRows.foldl (fun acc a => { acc with primary_key := some a })
      PgMeta.empty
    geomRows.foldl
      (fun acc r =>
        { acc with
          geometry_column := some r.f_geometry_column
          geometry_type := some r.type
          srid := some r.srid })
      withPk

/-- `PermissionsQuery.resource_ids` with an explicit backing store that
may fail: the source has no exception handler around the query, so a
store error propagates to the caller unchanged. -/
def resourceIdsE (store : Except String (List ResourcePermission))
    (table_names : List String) (role : String) : Except String (Finset Nat) :=
  match store with
  | .error e => .error e
  | .ok grants => .ok (resourceIds grants table_names role)

/-! ## Editing configuration (`map_viewer_config.py`, `edit_config`) -/

/-- `MapViewerConfig.EDIT_GEOM_TYPES`: PostGIS geometry type → QWC2 edit
geometry type. -/
def EDIT_GEOM_TYPES : List (String × String) :=
  [("POINT", "Point"), ("MULTIPOINT", "Point"),
   ("LINESTRING", "LineString"), ("MULTILINESTRING", "LineString"),
   ("POLYGON", "Polygon"), ("MULTIPOLYGON", "Polygon")]

/-- Dict lookup in `EDIT_GEOM_TYPES`. -/
def editGeomType? (t : String) : Option String :=
  (EDIT_GEOM_TYPES.find? (fun kv => kv.1 = t)).map (fun kv => kv.2)

/-- `MapViewerConfig.EDIT_FIELD_TYPES`: PostgreSQL data type → QWC2 edit
field type. -/
def EDIT_FIELD_TYPES : List (String × String) :=
  [("bigint", "number"), ("boolean", "boolean"),
   ("character varying", "text"), ("date", "date"),
   ("double precision", "number"), ("integer", "number"),
   ("numeric", "number"), ("real", "number"), ("smallint", "number"),
   ("text", "text"), ("timestamp with time zone", "date"),
   ("timestamp without time zone", "date"), ("uuid", "text")]

/-- `EDIT_FIELD_TYPES.get(data_type, 'text')`. -/
def editFieldType (dt : String) : String :=
  ((EDIT_FIELD_TYPES.find? (fun kv => kv.1 = dt)).map (fun kv => kv.2)).getD
    "text"

/-- An attribute of an edit dataset together with its introspected
column metadata. -/
structure EditAttr where
  name : String
  aliasValue : Option String
  meta : String × List (String × CVal)
deriving DecidableEq, Repr

/-- One entry of an edit dataset's `fields` list (lines 687-703). -/
structure EditField where
  id : String
  name : String
  type : String
  constraints : List (String × CVal)
deriving DecidableEq, Repr

/-- Build one `fields` entry: the display name falls back to the
attribute name when the alias is null or empty (Python truthiness of
`attribute.alias or attribute.name`). -/
def editField (a : EditAttr) : EditField :=
  ⟨a.name,
   match a.aliasValue with
   | none => a.name
   | some s => if s = "" then a.name else s,
   editFieldType a.meta.1,
   a.meta.2⟩

/-- Geometry-type resolution of `edit_config` (lines 715-725): only when
the info dict has a geometry column is the geometry type looked at, and
an unsupported type is logged and collapses to `none`. -/
def editConfigGeomType (pg : PgMeta) : Option String :=
  match pg.geometry_column with
  | none => none
  | some _ =>
    match pg.geometry_type with
    | none => none
    | some t => editGeomType? t

/-- One entry of the editable-dataset map. -/
structure EditDataset where
  editDataset : String
  layerName : String
  fields : List EditField
  geomType : String
deriving DecidableEq, Repr

/-- Per-dataset decision of `edit_config` (lines 679-737): the dataset is
added to the editable-dataset map iff its `fields` list is non-empty and
a supported geometry type was resolved. -/
def editDatasetEntry? (name title : String) (attrs : List EditAttr)
    (pg : PgMeta) : Option EditDataset :=
  let fields := attrs.map editField
  match editConfigGeomType pg, fields with
  | some g, f :: fs => some ⟨name, title, f :: fs, g⟩
  | _, _ => none

/-! ## Project synthesis extent resolution (`qgs_writer.py`,
`collect_layers`, lines 338-364) -/

/-- Row of the bounding-extent aggregate query. -/
structure ExtentRow where
  xmin : Option ℚ
  ymin : Option ℚ
  xmax : Option ℚ
  ymax : Option ℚ
deriving DecidableEq, Repr

/-- Outcome of `geoconn.execute(sql).first()` for the extent query:
either the call raises, or it returns an optional row. -/
inductive ExtentQueryOutcome where
  | failure
  | ok (row : Option ExtentRow)
deriving DecidableEq, Repr

/-- Python `x or d` for a nullable coordinate: null (and 0, which is
falsy in Python) falls back to the default component. -/
def pythonOr (x : Option ℚ) (d : ℚ) : ℚ :=
  match x with
  | none => d
  | some v => if v = 0 then d else v

/-- The extent step of the vector branch of `collect_layers`: `none`
models `return {}` (the layer is skipped), otherwise the resolved
extent is returned. -/
def resolveVectorExtent (dflt : ℚ × ℚ × ℚ × ℚ) (res : ExtentQueryOutcome) :
    Option (ℚ × ℚ × ℚ × ℚ) :=
  match res with
  | .failure => none
  | .ok none => some dflt
  | .ok (some r) =>
    some (pythonOr r.xmin dflt.1, pythonOr r.ymin dflt.2.1,
      pythonOr r.xmax dflt.2.2.1, pythonOr r.ymax dflt.2.2.2)

/-- The rendered project document entry for a layer (the fields of the
claim: the layer is present and carries its extent). -/
structure RenderedLayer where
  name : String
  layertype : String
  extent : ℚ × ℚ × ℚ × ℚ
deriving DecidableEq, Repr

/-- Tail of the vector branch of `collect_layers` from the extent step
on, with all earlier DB-dependent steps already successful: a failing
extent query skips the layer (`return {}`), otherwise the layer is
rendered with the resolved extent. -/
def vectorLayerResult (name : String) (dflt : ℚ × ℚ × ℚ × ℚ)
    (res : ExtentQueryOutcome) : Option RenderedLayer :=
  (resolveVectorExtent dflt res).map (fun e => ⟨name, "vector", e⟩)

/-! ## Graph traversals and termination (`collect_wms_layers`,
`collect_wfs_layers`, `collect_wms_layer_permissions`, `_layer_in_ows`)

The ORM exposes the layer hierarchy as an object graph over a finite
edge table (`group_layer`), not as an inductive tree, and the
traversals carry no visited-id set; they are modelled fuel-indexed,
with `none` for exhausted fuel. -/

/-- Resource type tags required for WMS permissions
(`wms_permissions`, lines 394-403). -/
def wmsTableNames : List String :=
  ["wms_wfs", "ows_layer", "data_set_view", "data_set", "data_source",
   "data_set_view_attributes", "background_layer", "template"]

/-- Per-node record of the layer object graph. -/
structure LayerNodeInfo where
  isGroup : Bool
  name : String
  oid : Nat
  title : Option String
  facade : Bool
  view : ViewChain
  templateinfo : Option Nat
  transparency : Int
  primaryKey : Option String
deriving DecidableEq, Repr

/-- The layer object graph: per-node data plus the ordered
`group_layer` edge table as `(parent, child)` pairs. -/
structure LayerGraph (α : Type) where
  info : α → LayerNodeInfo
  edges : List (α × α)

/-- Children of a node: sub layer ends of its outgoing edges, in edge
order. -/
def graphChildren {α : Type} [DecidableEq α] (G : LayerGraph α) (p : α) :
    List α :=
  (G.edges.filter (fun e => e.1 = p)).map (fun e => e.2)

/-- Children actually recursed into: the traversals only recurse on
group nodes. -/
def graphRecChildren {α : Type} [DecidableEq α] (G : LayerGraph α) (v : α) :
    List α :=
  if (G.info v).isGroup then graphChildren G v else []

/-- Parents of a node: group ends of its incoming edges
(`ows_layer.parents`). -/
def graphParents {α : Type} [DecidableEq α] (G : LayerGraph α) (c : α) :
    List α :=
  (G.edges.filter (fun e => e.2 = c)).map (fun e => e.1)

/-- `List.mapM` over `Option`, written out so its equations unfold
definitionally. -/
def mapOption {α β : Type} (f : α → Option β) : List α → Option (List β)
  | [] => some []
  | a :: as =>
    match f a, mapOption f as with
    | some b, some bs => some (b :: bs)
    | _, _ => none

/-- Generic fuel-indexed recursive graph walker: at each node it maps
itself over the node's children (with an environment updated by
`stepEnv`) and combines the node with the list of child/result pairs;
`none` when the fuel runs out. -/
def walkFuel {α σ β : Type} (childrenOf : α → List α) (stepEnv : σ → α → σ)
    (combine : α → σ → List (α × β) → β) : Nat → σ → α → Option β
  | 0, _, _ => none
  | n + 1, s, v =>
    (mapOption (walkFuel childrenOf stepEnv combine n (stepEnv s v))
      (childrenOf v)).map
      (fun rs => combine v s ((childrenOf v).zip rs))

/-- Nested WMS service config node produced by the structural walk
`collect_wms_layers`. -/
inductive WmsCfgNode where
  | mk (name : String) (ltype : String) (title : Option String)
      (layers : Option (List WmsCfgNode)) (hide_sublayers : Bool)
      (attributes : Option (List String)) (queryable : Option Bool)
      (opacity : Option Int)

/-- Node-to-document mapping of `collect_wms_layers` (lines 153-215):
`fac` is the incoming facade flag; for a data layer backed by a
database the stored attribute list also receives the appended geometry
pseudo-attribute (the source appends to the already-stored list). -/
def wmsCfgCombine (i : LayerNodeInfo) (fac : Bool)
    (children : List WmsCfgNode) : WmsCfgNode :=
  if i.isGroup then
    ⟨i.name, "layergroup", i.title, some children, i.facade, none, none,
     none⟩
  else
    let attrs :=
      if i.view.connectionType = "database" then
        some ((i.view.attributes.map (fun a => a.2)) ++ ["geometry"])
      else none
    let queryable :=
      match attrs with
      | some l => decide (0 < l.length)
      | none => true
    ⟨i.name, "layer", i.title, none, false, attrs, some queryable,
     if fac = true ∧ i.transparency ≠ 0 then some (100 - i.transparency)
     else none⟩

/-- Fuel-indexed structural walk `collect_wms_layers` over the object
graph, propagating the in-facade flag to descendants. -/
def collectWmsLayersFuel {α : Type} [DecidableEq α] (G : LayerGraph α) :
    Nat → Bool → α → Option WmsCfgNode :=
  walkFuel (graphRecChildren G)
    (fun fac v => fac || (G.info v).facade)
    (fun v fac prs => wmsCfgCombine (G.info v) fac (prs.map (fun pr => pr.2)))

/-- One entry of the flat WFS layer list. -/
structure WfsEntry where
  name : String
  attributes : List String
deriving DecidableEq, Repr

/-- Node mapping of the flattening walk `collect_wfs_layers`
(lines 274-325): groups are discarded, database-backed data layers emit
primary key, attribute names and the geometry pseudo-attribute. -/
def wfsCombine (i : LayerNodeInfo) (children : List (List WfsEntry)) :
    List WfsEntry :=
  if i.isGroup then children.flatten
  else if i.view.connectionType = "database" then
    [⟨i.name,
      i.primaryKey.toList ++ (i.view.attributes.map (fun a => a.2)) ++
        ["geometry"]⟩]
  else []

/-- Fuel-indexed flattening walk `collect_wfs_layers` over the object
graph. -/
def collectWfsLayersFuel {α : Type} [DecidableEq α] (G : LayerGraph α) :
    Nat → Unit → α → Option (List WfsEntry) :=
  walkFuel (graphRecChildren G) (fun s _ => s)
    (fun v _ prs => wfsCombine (G.info v) (prs.map (fun pr => pr.2)))

/-- Node mapping of the permission-filtered walk
`collect_wms_layer_permissions` over the object graph. -/
def wmsPermCombine (i : LayerNodeInfo) (rp pub : Finset Nat)
    (children : List (List WmsPermEntry)) : List WmsPermEntry :=
  if i.isGroup then
    let subs := children.flatten
    if subs ≠ [] then ⟨i.name, none, none⟩ :: subs else []
  else wmsPermDataEntries i.name i.oid i.view i.templateinfo rp pub

/-- Fuel-indexed permission-filtered walk over the object graph. -/
def collectWmsLayerPermissionsFuel {α : Type} [DecidableEq α]
    (G : LayerGraph α) (rp pub : Finset Nat) : Nat → Unit → α →
    Option (List WmsPermEntry) :=
  walkFuel (graphRecChildren G) (fun s _ => s)
    (fun v _ prs => wmsPermCombine (G.info v) rp pub
      (prs.map (fun pr => pr.2)))

/-- Fuel-indexed parent-chain walk
`DataproductServiceConfig._layer_in_ows` (lines 691-714): a layer is a
WMS layer iff some parent is the WMS root layer or is itself a WMS
layer. -/
def layerInOwsFuel {α : Type} [DecidableEq α] (G : LayerGraph α) (root : α) :
    Nat → Unit → α → Option Bool :=
  walkFuel (graphParents G) (fun s _ => s)
    (fun _ _ prs => prs.any (fun pr => decide (pr.1 = root) || pr.2))

/-! ## Theorems: claims C1-C10 and their supporting lemmas -/

/-- Claim C9: for every set of resource-type tags and every role distinct
from the public role, the exclusive permitted-id set (role ids minus
public ids) is disjoint from the public ids; for the public role itself
the exclusive set equals the public ids. -/
theorem exclusive_ids_spec (grants : List ResourcePermission)
    (T : List String) (r : String) :
    (r ≠ publicRole →
      Disjoint (exclusiveResourceIds grants T r)
        (resourceIds grants T publicRole)) ∧
    (r = publicRole →
      exclusiveResourceIds grants T r = resourceIds grants T publicRole) := by
  constructor
  · intro hr
    rw [exclusiveResourceIds, if_pos hr]
    exact Finset.sdiff_disjoint
  · intro hr
    subst hr
    rw [exclusiveResourceIds, if_neg (by simp)]

/-- Witness for C9 at a concrete grant list and role. -/
theorem exclusive_ids_spec_witness :
    Disjoint
      (exclusiveResourceIds
        [⟨"viewer", ⟨1, "ows_layer", "l"⟩, true, false, 0⟩]
        ["ows_layer"] "viewer")
      (resourceIds
        [⟨"viewer", ⟨1, "ows_layer", "l"⟩, true, false, 0⟩]
        ["ows_layer"] publicRole) :=
  (exclusive_ids_spec
    [⟨"viewer", ⟨1, "ows_layer", "l"⟩, true, false, 0⟩]
    ["ows_layer"] "viewer").1 (by decide)

/-- Counterexample to claim C5 as stated: when the bounding-extent query
fails, the source executes `return {}` — the layer is omitted from the
project output, not rendered with the configured default extent. -/
theorem extent_query_failure_skips_cx :
    vectorLayerResult "roads" (1, 2, 3, 4) ExtentQueryOutcome.failure =
      none ∧
    vectorLayerResult "roads" (1, 2, 3, 4) ExtentQueryOutcome.failure ≠
      some ⟨"roads", "vector", (1, 2, 3, 4)⟩ := by
  constructor
  · rfl
  · intro h
    simp [vectorLayerResult, resolveVectorExtent] at h

/-- Claim C5 (amended): a null extent result falls back to the configured
default extent (component-wise for null — in Python, falsy —
coordinates) and the layer is rendered; a failing extent query skips
the layer. -/
theorem extent_fallback_and_skip (name : String) (dflt : ℚ × ℚ × ℚ × ℚ) :
    vectorLayerResult name dflt (ExtentQueryOutcome.ok none) =
      some ⟨name, "vector", dflt⟩ ∧
    (∀ r : ExtentRow,
      vectorLayerResult name dflt (ExtentQueryOutcome.ok (some r)) =
        some ⟨name, "vector",
          (pythonOr r.xmin dflt.1, pythonOr r.ymin dflt.2.1,
           pythonOr r.xmax dflt.2.2.1, pythonOr r.ymax dflt.2.2.2)⟩) ∧
    vectorLayerResult name dflt ExtentQueryOutcome.failure = none := by
  refine ⟨?_, ?_, rfl⟩
  · rfl
  · intro r
    rfl

/-- Counterexample to claim C4 as stated: `resource_ids` has no exception
handler, so a store error propagates to the caller instead of yielding
an empty id set. -/
theorem resource_ids_propagates_cx :
    resourceIdsE (Except.error "connection refused") ["data_set_edit"]
      "viewer" = Except.error "connection refused" ∧
    resourceIdsE (Except.error "connection refused") ["data_set_edit"]
      "viewer" ≠ Except.ok (∅ : Finset Nat) := by
  constructor
  · rfl
  · intro h
    simp [resourceIdsE] at h

/-- Claim C4 (amended): the PostGIS introspection queries
(`postgis_metadata`, `attribute_metadata`) catch an erroring backing
store, log, and return an empty info dict resp. the default `'text'`
type with no constraints; the permission queries (`resource_ids`) have
no handler and propagate the store error to their caller. -/
theorem query_error_containment (e : String) :
    postgisMetadata (Except.error e) = PgMeta.empty ∧
    attributeMetadata (Except.error e) = ("text", []) ∧
    (∀ (T : List String) (role : String),
      resourceIdsE (Except.error e) T role = Except.error e) := by
  exact ⟨rfl, rfl, fun _ _ => rfl⟩

/-- Claim C6: for a `numeric(precision, scale)` column with non-null
(truthy) precision the derived constraints are
`step = 10^(-scale)`, `max = 10^(precision-scale) - 10^(-scale)` and
`min = -max`; `numeric(5,2)` yields `min = -999.99`, `max = 999.99`,
`step = 0.01`; `smallint`, `integer` and `bigint` columns yield their
exact signed ranges. -/
theorem numeric_constraint_derivation :
    (∀ (p s : ℤ) (cm : Option ℤ), p ≠ 0 →
      attributeMetadataRow "numeric" cm (some p) (some s) =
        ("numeric",
         [("numeric_precision", CVal.num p), ("numeric_scale", CVal.num s),
          ("min", CVal.num (-((10 : ℚ) ^ (p - s) - (10 : ℚ) ^ (-s)))),
          ("max", CVal.num ((10 : ℚ) ^ (p - s) - (10 : ℚ) ^ (-s))),
          ("step", CVal.num ((10 : ℚ) ^ (-s)))])) ∧
    attributeMetadataRow "numeric" none (some 5) (some 2) =
      ("numeric",
       [("numeric_precision", CVal.num 5), ("numeric_scale", CVal.num 2),
        ("min", CVal.num (-(99999 / 100))),
        ("max", CVal.num (99999 / 100)),
        ("step", CVal.num (1 / 100))]) ∧
    attributeMetadataRow "smallint" none none none =
      ("smallint",
       [("min", CVal.num (-32768)), ("max", CVal.num 32767)]) ∧
    attributeMetadataRow "integer" none none none =
      ("integer",
       [("min", CVal.num (-(2 ^ 31))), ("max", CVal.num (2 ^ 31 - 1))]) ∧
    attributeMetadataRow "bigint" none none none =
      ("bigint",
       [("min", CVal.num (-(2 ^ 63))), ("max", CVal.num (2 ^ 63 - 1))]) := by
  refine ⟨?_, ?_, ?_, ?_, ?_⟩
  · intro p s cm hp
    simp [attributeMetadataRow, truthyInt, hp]
  · have h : ((10 : ℚ) ^ ((5 : ℤ) - 2) - (10 : ℚ) ^ (-(2 : ℤ))) =
        99999 / 100 := by norm_num
    simp [attributeMetadataRow, truthyInt, h]
    norm_num
  · simp [attributeMetadataRow, truthyInt]
  · simp [attributeMetadataRow, truthyInt]
    norm_num
  · simp [attributeMetadataRow, truthyInt]
    norm_num

/-- Witness for C6 at `numeric(7,3)`. -/
theorem numeric_constraint_derivation_witness :
    attributeMetadataRow "numeric" none (some 7) (some 3) =
      ("numeric",
       [("numeric_precision", CVal.num 7), ("numeric_scale", CVal.num 3),
        ("min", CVal.num (-((10 : ℚ) ^ ((7 : ℤ) - 3) - (10 : ℚ) ^ (-(3 : ℤ))))),
        ("max", CVal.num ((10 : ℚ) ^ ((7 : ℤ) - 3) - (10 : ℚ) ^ (-(3 : ℤ)))),
        ("step", CVal.num ((10 : ℚ) ^ (-(3 : ℤ))))]) :=
  numeric_constraint_derivation.1 7 3 none (by norm_num)

/-- The resolved edit geometry type exists iff the info dict has a
geometry column and its geometry type is supported. -/
theorem editConfigGeomType_isSome (pg : PgMeta) :
    (editConfigGeomType pg).isSome ↔
      pg.geometry_column.isSome ∧
        ∃ t, pg.geometry_type = some t ∧ (editGeomType? t).isSome := by
  rcases pg with ⟨pk, gc, gt, srid⟩
  cases gc <;> cases gt <;> simp [editConfigGeomType]

/-- Claim C8: an edit dataset enters the editable-dataset map iff it has
at least one attribute field and its introspected geometry type resolves
through `EDIT_GEOM_TYPES`; the only supported collapses are
Point/MultiPoint→Point, LineString/MultiLineString→LineString,
Polygon/MultiPolygon→Polygon, and any other geometry type maps to
nothing (the dataset is excluded, without aborting the run). -/
theorem edit_dataset_inclusion :
    (∀ (name title : String) (attrs : List EditAttr) (pg : PgMeta),
      (editDatasetEntry? name title attrs pg).isSome ↔
        (attrs ≠ [] ∧ pg.geometry_column.isSome ∧
          ∃ t, pg.geometry_type = some t ∧ (editGeomType? t).isSome)) ∧
    editGeomType? "POINT" = some "Point" ∧
    editGeomType? "MULTIPOINT" = some "Point" ∧
    editGeomType? "LINESTRING" = some "LineString" ∧
    editGeomType? "MULTILINESTRING" = some "LineString" ∧
    editGeomType? "POLYGON" = some "Polygon" ∧
    editGeomType? "MULTIPOLYGON" = some "Polygon" ∧
    (∀ t : String,
      t ∉ ["POINT", "MULTIPOINT", "LINESTRING", "MULTILINESTRING",
           "POLYGON", "MULTIPOLYGON"] →
      editGeomType? t = none) := by
  refine ⟨?_, by decide, by decide, by decide, by decide, by decide,
    by decide, ?_⟩
  · intro name title attrs pg
    have h := editConfigGeomType_isSome pg
    cases hc : editConfigGeomType pg <;> rw [hc] at h <;>
      cases attrs <;>
      simp_all [editDatasetEntry?]
  · intro t ht
    simp only [List.mem_cons, List.mem_singleton, not_or] at ht
    obtain ⟨h1, h2, h3, h4, h5, h6, -⟩ := ht
    simp [editGeomType?, EDIT_GEOM_TYPES, List.find?,
      Ne.symm h1, Ne.symm h2, Ne.symm h3, Ne.symm h4, Ne.symm h5,
      Ne.symm h6]

/-- Lookup distributes over appending to the `facets` dict. -/
theorem facetsLookup_append (m m2 : List (String × List SearchEntry))
    (k : String) :
    facetsLookup (m ++ m2) k =
      match facetsLookup m k with
      | some es => some es
      | none => facetsLookup m2 k := by
  induction m with
  | nil => simp [facetsLookup]
  | cons kv rest ih =>
    by_cases h : kv.1 = k <;> simp [facetsLookup, h, ih]

theorem facetsLookup_update_self (m : List (String × List SearchEntry))
    (k : String) (v : List SearchEntry) :
    (facetsLookup m k).isSome →
    facetsLookup (facetsUpdate m k v) k = some v := by
  induction m with
  | nil => simp [facetsLookup]
  | cons kv rest ih =>
    intro hs
    by_cases h : kv.1 = k
    · simp [facetsLookup, facetsUpdate, h]
    · rw [facetsLookup, if_neg h] at hs
      rw [facetsUpdate, if_neg h, facetsLookup, if_neg h]
      exact ih hs

theorem facetsLookup_update_other (m : List (String × List SearchEntry))
    (k : String) (v : List SearchEntry) (k' : String) (h : k' ≠ k) :
    facetsLookup (facetsUpdate m k v) k' = facetsLookup m k' := by
  induction m with
  | nil => simp [facetsLookup, facetsUpdate]
  | cons kv rest ih =>
    by_cases hk : kv.1 = k
    · rw [facetsUpdate, if_pos hk, facetsLookup, facetsLookup,
        if_neg (hk ▸ fun hc => h hc.symm), if_neg (hk ▸ fun hc => h hc.symm)]
    · rw [facetsUpdate, if_neg hk, facetsLookup, facetsLookup]
      by_cases hk' : kv.1 = k'
      · rw [if_pos hk', if_pos hk']
      · rw [if_neg hk', if_neg hk', ih]

theorem facetsStep_skip (st : List SearchEntry ×
    List (String × List SearchEntry)) (v : ViewFacet)
    (h0 : v.searchable = 0) : facetsStep st v = st := by
  simp [facetsStep, h0]

theorem facetsStep_newFacet (st : List SearchEntry ×
    List (String × List SearchEntry)) (v : ViewFacet)
    (h0 : v.searchable ≠ 0) (hlk : facetsLookup st.2 v.facet = none) :
    facetsStep st v =
      (st.1 ++ [fsEntry v], st.2 ++ [(v.facet, [fsEntry v])]) := by
  have hlk2 : facetsLookup (st.2 ++ [(v.facet, [fsEntry v])]) v.facet =
      some [fsEntry v] := by
    rw [facetsLookup_append, hlk]
    simp [facetsLookup]
  rw [facetsStep, if_pos h0]
  simp only [hlk, Option.isNone_none, if_true, hlk2, Option.getD_some]
  rw [if_neg (by simp [fsEntry])]

theorem facetsStep_dupPair (st : List SearchEntry ×
    List (String × List SearchEntry)) (v : ViewFacet)
    (h0 : v.searchable ≠ 0) (es : List SearchEntry)
    (hlk : facetsLookup st.2 v.facet = some es)
    (hdup : ∃ e ∈ es, e.filter_word = v.filter_word) :
    facetsStep st v = st := by
  obtain ⟨e, he, hew⟩ := hdup
  rw [facetsStep, if_pos h0]
  simp only [hlk, Option.isNone_some, Bool.false_eq_true, if_false,
    Option.getD_some]
  rw [if_neg]
  intro hall
  have hcontra := List.all_eq_true.mp hall e he
  simp [hew] at hcontra

theorem facetsStep_newPair (st : List SearchEntry ×
    List (String × List SearchEntry)) (v : ViewFacet)
    (h0 : v.searchable ≠ 0) (es : List SearchEntry)
    (hlk : facetsLookup st.2 v.facet = some es)
    (huniq : ∀ e ∈ es, e.filter_word ≠ v.filter_word) :
    facetsStep st v =
      (st.1 ++ [fsEntry v],
       facetsUpdate st.2 v.facet (es ++ [fsEntry v])) := by
  rw [facetsStep, if_pos h0]
  simp only [hlk, Option.isNone_some, Bool.false_eq_true, if_false,
    Option.getD_some]
  rw [if_pos]
  rw [List.all_eq_true]
  intro e he
  simpa using huniq e he

theorem facets_foldl_spec :
    ∀ (views : List ViewFacet) (pre : List SearchEntry)
      (m : List (String × List SearchEntry)) (seen : List (String × String)),
    FacetsInv m seen →
    (views.foldl facetsStep (pre, m)).1 =
      pre ++ specDedupFirstSeen views seen := by
  intro views
  induction views with
  | nil =>
    intro pre m seen _
    simp [specDedupFirstSeen]
  | cons v vs ih =>
    intro pre m seen hinv
    by_cases h0 : v.searchable = 0
    · rw [List.foldl_cons, facetsStep_skip _ _ h0, specDedupFirstSeen,
        if_neg (by simp [h0]), ih pre m seen hinv]
    · by_cases hseen : (v.facet, v.filter_word) ∈ seen
      · obtain ⟨es, hlk, hdup⟩ := (hinv v.facet v.filter_word).mp hseen
        rw [List.foldl_cons, facetsStep_dupPair (pre, m) v h0 es hlk hdup,
          specDedupFirstSeen, if_neg (by simp [hseen]), ih pre m seen hinv]
      · cases hlk : facetsLookup m v.facet with
        | none =>
          have hinv' :
              FacetsInv (m ++ [(v.facet, [fsEntry v])])
                ((v.facet, v.filter_word) :: seen) := by
            intro k w
            rw [facetsLookup_append]
            by_cases hk : k = v.facet
            · subst hk
              have hnotseen : ∀ w', (v.facet, w') ∉ seen := by
                intro w' hw'
                obtain ⟨es, hes, -⟩ := (hinv v.facet w').mp hw'
                rw [hlk] at hes
                cases hes
              rw [hlk]
              simp only [facetsLookup, if_pos rfl]
              constructor
              · intro hw
                rcases List.mem_cons.mp hw with hw | hw
                · have hw2 : w = v.filter_word := by
                    simpa using congrArg Prod.snd hw
                  exact ⟨[fsEntry v], rfl, fsEntry v, List.mem_singleton_self _,
                    by simp [fsEntry, hw2]⟩
                · exact absurd hw (hnotseen w)
              · rintro ⟨es, hes, e, he, hew⟩
                have hes' : es = [fsEntry v] := by
                  simpa using hes.symm
                subst hes'
                have he' : e = fsEntry v := by simpa using he
                subst he'
                have hw : w = v.filter_word := by
                  simpa [fsEntry] using hew.symm
                rw [hw]
                exact List.mem_cons_self _ _
            · have hkk : ((v.facet, v.filter_word) : String × String) ≠
                  (k, w) := by
                intro hcontra
                exact hk (by simpa using (congrArg Prod.fst hcontra).symm)
              constructor
              · intro hw
                rcases List.mem_cons.mp hw with hw | hw
                · exact absurd hw.symm hkk
                · obtain ⟨es, hes, hrest⟩ := (hinv k w).mp hw
                  rw [hes]
                  exact ⟨es, rfl, hrest⟩
              · rintro ⟨es, hes, hrest⟩
                rcases hlk' : facetsLookup m k with _ | es'
                · rw [hlk'] at hes
                  simp only [facetsLookup] at hes
                  rw [if_neg (fun hc => hk hc.symm)] at hes
                  cases hes
                · rw [hlk'] at hes
                  have hes2 : es' = es := by simpa using hes
                  subst hes2
                  exact List.mem_cons_of_mem _
                    ((hinv k w).mpr ⟨es', hlk', hrest⟩)
          rw [List.foldl_cons, facetsStep_newFacet (pre, m) v h0 hlk,
            specDedupFirstSeen, if_pos ⟨h0, hseen⟩, ih _ _ _ hinv']
          simp
        | some es =>
          have huniq : ∀ e ∈ es, e.filter_word ≠ v.filter_word := by
            intro e he hew
            exact hseen
              ((hinv v.facet v.filter_word).mpr ⟨es, hlk, e, he, hew⟩)
          have hinv' :
              FacetsInv (facetsUpdate m v.facet (es ++ [fsEntry v]))
                ((v.facet, v.filter_word) :: seen) := by
            intro k w
            by_cases hk : k = v.facet
            · subst hk
              rw [facetsLookup_update_self m v.facet (es ++ [fsEntry v])
                (by simp [hlk])]
              constructor
              · intro hw
                rcases List.mem_cons.mp hw with hw | hw
                · have hw2 : w = v.filter_word := by
                    simpa using congrArg Prod.snd hw
                  exact ⟨es ++ [fsEntry v], rfl, fsEntry v, by simp,
                    by simp [fsEntry, hw2]⟩
                · obtain ⟨es', hes', e, he, hew⟩ := (hinv v.facet w).mp hw
                  rw [hlk] at hes'
                  have hes2 : es' = es := by simpa using hes'.symm
                  subst hes2
                  exact ⟨es' ++ [fsEntry v], rfl, e, by simp [he], hew⟩
              · rintro ⟨es', hes', e, he, hew⟩
                have hes2 : es' = es ++ [fsEntry v] := by
                  simpa using hes'.symm
                subst hes2
                rcases List.mem_append.mp he with he | he
                · exact List.mem_cons_of_mem _
                    ((hinv v.facet w).mpr ⟨es, hlk, e, he, hew⟩)
                · have he' : e = fsEntry v := by simpa using he
                  subst he'
                  have hw : w = v.filter_word := by
                    simpa [fsEntry] using hew.symm
                  rw [hw]
                  exact List.mem_cons_self _ _
            · rw [facetsLookup_update_other m v.facet (es ++ [fsEntry v]) k
                (fun hc => hk hc)]
              have hkk : ((v.facet, v.filter_word) : String × String) ≠
                  (k, w) := by
                intro hcontra
                exact hk (by simpa using (congrArg Prod.fst hcontra).symm)
              constructor
              · intro hw
                rcases List.mem_cons.mp hw with hw | hw
                · exact absurd hw.symm hkk
                · exact (hinv k w).mp hw
              · intro hw
                exact List.mem_cons_of_mem _ ((hinv k w).mpr hw)
          rw [List.foldl_cons, facetsStep_newPair (pre, m) v h0 es hlk huniq,
            specDedupFirstSeen, if_pos ⟨h0, hseen⟩, ih _ _ _ hinv']
          simp

theorem facetsBuild_eq (views : List ViewFacet) :
    facetsBuild views = baselineSearches ++ specDedupFirstSeen views [] := by
  apply facets_foldl_spec
  intro k w
  simp [facetsLookup]

theorem specDedup_pair_not_seen :
    ∀ (views : List ViewFacet) (seen : List (String × String))
      (e : SearchEntry), e ∈ specDedupFirstSeen views seen →
      (e.name, e.filter_word) ∉ seen := by
  intro views
  induction views with
  | nil => intro seen e he; cases he
  | cons v vs ih =>
    intro seen e he
    rw [specDedupFirstSeen] at he
    split at he
    · rename_i hcond
      rcases List.mem_cons.mp he with he | he
      · subst he
        exact hcond.2
      · intro hs
        exact ih _ _ he (List.mem_cons_of_mem _ hs)
    · exact ih _ _ he

theorem specDedup_pairwise :
    ∀ (views : List ViewFacet) (seen : List (String × String)),
      (specDedupFirstSeen views seen).Pairwise
        (fun a b => (a.name, a.filter_word) ≠ (b.name, b.filter_word)) := by
  intro views
  induction views with
  | nil => intro seen; exact List.Pairwise.nil
  | cons v vs ih =>
    intro seen
    rw [specDedupFirstSeen]
    split
    · refine List.Pairwise.cons ?_ (ih _)
      intro b hb hcontra
      have hmem := specDedup_pair_not_seen vs _ b hb
      rw [← hcontra] at hmem
      exact hmem (List.mem_cons_self _ _)
    · exact ih _

/-- Claim C7: the generated facet list always begins with the two fixed
baseline entries (`foreground` default-on, then `background`
default-off); over any view sequence the builder appends exactly the
first-seen deduplication of `(facet, filter_word)` pairs, so no two
appended entries share a pair and distinct pairs appear in first-seen
order; inserting `(A, x)` twice appends one entry, `(A, x)` then
`(A, y)` appends two. -/
theorem facets_baseline_dedup :
    (∀ views, facetsBuild views =
      baselineSearches ++ specDedupFirstSeen views []) ∧
    (∀ views, (facetsBuild views).take 2 =
      [⟨"foreground", "Karte", true⟩,
       ⟨"background", "Hintergrundkarte", false⟩]) ∧
    (∀ views seen, (specDedupFirstSeen views seen).Pairwise
      (fun a b => (a.name, a.filter_word) ≠ (b.name, b.filter_word))) ∧
    facetsBuild [⟨"A", "x", 1⟩, ⟨"A", "x", 1⟩] =
      baselineSearches ++ [⟨"A", "x", false⟩] ∧
    facetsBuild [⟨"A", "x", 1⟩, ⟨"A", "y", 1⟩] =
      baselineSearches ++ [⟨"A", "x", false⟩, ⟨"A", "y", false⟩] := by
  refine ⟨facetsBuild_eq, ?_, specDedup_pairwise, by decide, by decide⟩
  intro views
  rw [facetsBuild_eq]
  rfl


/-- Witness for C8: a dataset with one attribute and a MULTIPOLYGON
geometry is included; the unsupported `GEOMETRYCOLLECTION` type maps to
nothing. -/
theorem edit_dataset_inclusion_witness :
    ((editDatasetEntry? "ds" "Title"
        [⟨"a", none, ("text", [])⟩]
        ⟨some "id", some "geom", some "MULTIPOLYGON", some 2056⟩).isSome ↔
      (([⟨"a", none, ("text", [])⟩] : List EditAttr) ≠ [] ∧
        (some "geom" : Option String).isSome ∧
        ∃ t, (some "MULTIPOLYGON" : Option String) = some t ∧
          (editGeomType? t).isSome)) ∧
    editGeomType? "GEOMETRYCOLLECTION" = none :=
  ⟨edit_dataset_inclusion.1 "ds" "Title" [⟨"a", none, ("text", [])⟩]
      ⟨some "id", some "geom", some "MULTIPOLYGON", some 2056⟩,
   edit_dataset_inclusion.2.2.2.2.2.2.2 "GEOMETRYCOLLECTION" (by decide)⟩

/-- Membership in a priority-descending insertion. -/
theorem mem_insertByPriorityDesc (p q : ResourcePermission)
    (l : List ResourcePermission) :
    p ∈ insertByPriorityDesc q l ↔ p = q ∨ p ∈ l := by
  induction l with
  | nil => simp [insertByPriorityDesc]
  | cons r rs ih =>
    rw [insertByPriorityDesc]
    split
    · simp
    · rw [List.mem_cons, ih, List.mem_cons]
      tauto

/-- Sorting by descending priority preserves membership. -/
theorem mem_sortByPriorityDesc (p : ResourcePermission)
    (l : List ResourcePermission) :
    p ∈ sortByPriorityDesc l ↔ p ∈ l := by
  induction l with
  | nil => simp [sortByPriorityDesc]
  | cons r rs ih =>
    rw [sortByPriorityDesc, List.foldr_cons, mem_insertByPriorityDesc]
    rw [sortByPriorityDesc] at ih
    rw [ih, List.mem_cons]

/-- Membership in the priority-ordered grants of a role for one type tag
(no name filter). -/
theorem mem_resourcePermissions_none (p : ResourcePermission)
    (grants : List ResourcePermission) (tn role : String) :
    p ∈ resourcePermissions grants tn none role ↔
      p ∈ grants ∧ p.role = role ∧ p.resource.table_name = tn := by
  rw [resourcePermissions, mem_sortByPriorityDesc]
  simp only [rolePermissionsQuery, List.mem_filter, decide_eq_true_eq]
  tauto

/-- A dataset name enters `writeable_datasets` iff some matching edit
grant of the role has its write flag set — regardless of priority. -/
theorem mem_writeableDatasets (x : String)
    (grants : List ResourcePermission) (role : String) :
    x ∈ writeableDatasets grants role ↔
      ∃ g ∈ grants, g.role = role ∧ g.resource.table_name = "data_set_edit" ∧
        g.write = true ∧ g.resource.name = x := by
  have hfold : ∀ (l : List ResourcePermission) (acc : Finset String),
      x ∈ l.foldl
        (fun acc p =>
          if p.write = true ∧ p.resource.name ∉ acc then
            insert p.resource.name acc
          else acc) acc ↔
      x ∈ acc ∨ ∃ p ∈ l, p.write = true ∧ p.resource.name = x := by
    intro l
    induction l with
    | nil => simp
    | cons p ps ih =>
      intro acc
      rw [List.foldl_cons, ih]
      have hstep : x ∈ (if p.write = true ∧ p.resource.name ∉ acc then
          insert p.resource.name acc else acc) ↔
          x ∈ acc ∨ (p.write = true ∧ p.resource.name = x) := by
        split
        · rename_i hcond
          rw [Finset.mem_insert]
          constructor
          · rintro (h | h)
            · exact Or.inr ⟨hcond.1, h.symm⟩
            · exact Or.inl h
          · rintro (h | ⟨-, h⟩)
            · exact Or.inr h
            · exact Or.inl h.symm
        · rename_i hcond
          rw [not_and_or, not_not] at hcond
          constructor
          · exact Or.inl
          · rintro (h | ⟨hw, hn⟩)
            · exact h
            · rcases hcond with hcond | hcond
              · exact absurd hw hcond
              · exact hn ▸ hcond
      rw [hstep]
      simp only [List.mem_cons]
      constructor
      · rintro ((h | h) | ⟨q, hq, hqs⟩)
        · exact Or.inl h
        · exact Or.inr ⟨p, Or.inl rfl, h⟩
        · exact Or.inr ⟨q, Or.inr hq, hqs⟩
      · rintro (h | ⟨q, (rfl | hq), hqs⟩)
        · exact Or.inl (Or.inl h)
        · exact Or.inl (Or.inr hqs)
        · exact Or.inr ⟨q, hq, hqs⟩
  rw [writeableDatasets, hfold]
  simp only [Finset.not_mem_empty, false_or]
  constructor
  · rintro ⟨p, hp, hw, hn⟩
    obtain ⟨hg, hr, ht⟩ := (mem_resourcePermissions_none p grants
      "data_set_edit" role).mp hp
    exact ⟨p, hg, hr, ht, hw, hn⟩
  · rintro ⟨g, hg, hr, ht, hw, hn⟩
    exact ⟨g, (mem_resourcePermissions_none g grants
      "data_set_edit" role).mpr ⟨hg, hr, ht⟩, hw, hn⟩

/-- Counterexample to claim C1 as stated: with a priority-5 edit grant
whose write flag is clear and a priority-1 grant whose write flag is
set, the highest-priority matching grant denies write, yet the emitted
dataset permission reports `writable = true` — any matching write grant
wins, not the highest-priority one. -/
theorem dataset_writable_highest_priority_cx :
    ((datasetPermissions
        [⟨"r", ⟨10, "data_set_edit", "ds"⟩, true, false, 5⟩,
         ⟨"r", ⟨10, "data_set_edit", "ds"⟩, true, true, 1⟩,
         ⟨"public", ⟨20, "data_set_view", "v"⟩, true, false, 0⟩,
         ⟨"public", ⟨30, "data_set", "d"⟩, true, false, 0⟩,
         ⟨"public", ⟨40, "data_source", "s"⟩, true, false, 0⟩]
        [⟨10, "ds", ⟨20, ⟨30, ⟨40, "database"⟩⟩, []⟩⟩]
        "r").map (fun en => (en.name, en.writable)) = [("ds", true)]) ∧
    (specHighestMatchingEditGrant
        [⟨"r", ⟨10, "data_set_edit", "ds"⟩, true, false, 5⟩,
         ⟨"r", ⟨10, "data_set_edit", "ds"⟩, true, true, 1⟩,
         ⟨"public", ⟨20, "data_set_view", "v"⟩, true, false, 0⟩,
         ⟨"public", ⟨30, "data_set", "d"⟩, true, false, 0⟩,
         ⟨"public", ⟨40, "data_source", "s"⟩, true, false, 0⟩]
        "r" "ds").map (fun g => g.write) = some false := by
  constructor
  · decide
  · decide

/-- Claim C1 (amended): an emitted dataset permission entry is writable
iff *some* matching edit grant of the role (any priority) has its write
flag set; the spec's example `[(priority=1, write=false),
(priority=5, write=true)] → true` still holds; and every emitted entry
has `creatable = updatable = deletable = writable` and
`readable = true`. -/
theorem dataset_writable_any_write (grants : List ResourcePermission)
    (edits : List DataSetEditE) (role : String) :
    ∀ entry ∈ datasetPermissions grants edits role,
      (entry.writable = true ↔
        ∃ g ∈ grants, g.role = role ∧
          g.resource.table_name = "data_set_edit" ∧
          g.resource.name = entry.name ∧ g.write = true) ∧
      entry.creatable = entry.writable ∧
      entry.readable = true ∧
      entry.updatable = entry.writable ∧
      entry.deletable = entry.writable := by
  intro entry hmem
  obtain ⟨e, he, hsome⟩ := List.mem_filterMap.mp hmem
  simp only [datasetPermEntry?] at hsome
  split at hsome
  · cases hsome
  · split at hsome <;> split at hsome
    · rw [Option.some.injEq] at hsome
      subst hsome
      refine ⟨?_, rfl, rfl, rfl, rfl⟩
      simp only [decide_eq_true_eq, mem_writeableDatasets]
      constructor
      · rintro ⟨g, hg, hr, ht, hw, hn⟩
        exact ⟨g, hg, hr, ht, hn, hw⟩
      · rintro ⟨g, hg, hr, ht, hn, hw⟩
        exact ⟨g, hg, hr, ht, hw, hn⟩
    · cases hsome
    · rw [Option.some.injEq] at hsome
      subst hsome
      refine ⟨?_, rfl, rfl, rfl, rfl⟩
      simp only [decide_eq_true_eq, mem_writeableDatasets]
      constructor
      · rintro ⟨g, hg, hr, ht, hw, hn⟩
        exact ⟨g, hg, hr, ht, hn, hw⟩
      · rintro ⟨g, hg, hr, ht, hn, hw⟩
        exact ⟨g, hg, hr, ht, hw, hn⟩
    · cases hsome

/-- Witness for C1 (amended): applied at the counterexample
configuration, where the sole emitted entry is writable through the
low-priority write grant. -/
theorem dataset_writable_any_write_witness :
    ((⟨"ds", [], true, true, true, true, true⟩ : DatasetPermEntry).writable =
        true ↔
      ∃ g ∈ [⟨"r", ⟨10, "data_set_edit", "ds"⟩, true, false, 5⟩,
             ⟨"r", ⟨10, "data_set_edit", "ds"⟩, true, true, 1⟩,
             ⟨"public", ⟨20, "data_set_view", "v"⟩, true, false, 0⟩,
             ⟨"public", ⟨30, "data_set", "d"⟩, true, false, 0⟩,
             (⟨"public", ⟨40, "data_source", "s"⟩, true, false, 0⟩ :
               ResourcePermission)],
        g.role = "r" ∧ g.resource.table_name = "data_set_edit" ∧
        g.resource.name =
          (⟨"ds", [], true, true, true, true, true⟩ :
            DatasetPermEntry).name ∧ g.write = true) ∧
    (⟨"ds", [], true, true, true, true, true⟩ :
      DatasetPermEntry).creatable =
      (⟨"ds", [], true, true, true, true, true⟩ :
        DatasetPermEntry).writable ∧
    (⟨"ds", [], true, true, true, true, true⟩ :
      DatasetPermEntry).readable = true ∧
    (⟨"ds", [], true, true, true, true, true⟩ :
      DatasetPermEntry).updatable =
      (⟨"ds", [], true, true, true, true, true⟩ :
        DatasetPermEntry).writable ∧
    (⟨"ds", [], true, true, true, true, true⟩ :
      DatasetPermEntry).deletable =
      (⟨"ds", [], true, true, true, true, true⟩ :
        DatasetPermEntry).writable :=
  dataset_writable_any_write
    [⟨"r", ⟨10, "data_set_edit", "ds"⟩, true, false, 5⟩,
     ⟨"r", ⟨10, "data_set_edit", "ds"⟩, true, true, 1⟩,
     ⟨"public", ⟨20, "data_set_view", "v"⟩, true, false, 0⟩,
     ⟨"public", ⟨30, "data_set", "d"⟩, true, false, 0⟩,
     ⟨"public", ⟨40, "data_source", "s"⟩, true, false, 0⟩]
    [⟨10, "ds", ⟨20, ⟨30, ⟨40, "database"⟩⟩, []⟩⟩]
    "r"
    ⟨"ds", [], true, true, true, true, true⟩
    (by decide)

/-- Counterexample to claim C2 as stated: a data layer whose own, view,
dataset and source ids are all granted to the public role only is
excluded from the WMS permission walk of a non-public role (which tests
the role's exclusive ids), although every id lies in the union of the
role's and the public role's granted ids. -/
theorem wms_walk_public_only_layer_excluded_cx :
    (collectWmsLayerPermissions
      (resourceIds
        [⟨"public", ⟨1, "ows_layer", "l"⟩, true, false, 0⟩,
         ⟨"public", ⟨2, "data_set_view", "v"⟩, true, false, 0⟩,
         ⟨"public", ⟨3, "data_set", "d"⟩, true, false, 0⟩,
         ⟨"public", ⟨4, "data_source", "s"⟩, true, false, 0⟩]
        wmsTableNames "r" \
       resourceIds
        [⟨"public", ⟨1, "ows_layer", "l"⟩, true, false, 0⟩,
         ⟨"public", ⟨2, "data_set_view", "v"⟩, true, false, 0⟩,
         ⟨"public", ⟨3, "data_set", "d"⟩, true, false, 0⟩,
         ⟨"public", ⟨4, "data_source", "s"⟩, true, false, 0⟩]
        wmsTableNames publicRole)
      (resourceIds
        [⟨"public", ⟨1, "ows_layer", "l"⟩, true, false, 0⟩,
         ⟨"public", ⟨2, "data_set_view", "v"⟩, true, false, 0⟩,
         ⟨"public", ⟨3, "data_set", "d"⟩, true, false, 0⟩,
         ⟨"public", ⟨4, "data_source", "s"⟩, true, false, 0⟩]
        wmsTableNames publicRole)
      (Layer.data "l" 1 ⟨2, 3, 4, "database", []⟩ none 0) = []) ∧
    ([1, 2, 3, 4].all (fun i =>
      i ∈ resourceIds
        [⟨"public", ⟨1, "ows_layer", "l"⟩, true, false, 0⟩,
         ⟨"public", ⟨2, "data_set_view", "v"⟩, true, false, 0⟩,
         ⟨"public", ⟨3, "data_set", "d"⟩, true, false, 0⟩,
         ⟨"public", ⟨4, "data_source", "s"⟩, true, false, 0⟩]
        wmsTableNames "r" ∪
        resourceIds
        [⟨"public", ⟨1, "ows_layer", "l"⟩, true, false, 0⟩,
         ⟨"public", ⟨2, "data_set_view", "v"⟩, true, false, 0⟩,
         ⟨"public", ⟨3, "data_set", "d"⟩, true, false, 0⟩,
         ⟨"public", ⟨4, "data_source", "s"⟩, true, false, 0⟩]
        wmsTableNames publicRole) = true) := by
  constructor
  · decide
  · decide

/-- Claim C2 (amended): in the WMS permission walk a data layer without
info template is included iff its own, view and dataset ids are in the
role's (exclusive) permitted set while its data source id may also be
covered by public grants alone; in the data service permission walk all
four ids are tested against the union of role and public grants, a
candidate entry being emitted iff additionally some attribute is
permitted or the dataset is writable. -/
theorem data_layer_inclusion_ids :
    (∀ (rp pub : Finset Nat) (n : String) (oid : Nat) (v : ViewChain)
        (t : Int),
      collectWmsLayerPermissions rp pub (Layer.data n oid v none t) ≠ [] ↔
        (oid ∈ rp ∧ v.viewOid ∈ rp ∧ v.dataSetOid ∈ rp ∧
          v.dataSourceOid ∈ rp ∪ pub)) ∧
    (∀ (grants : List ResourcePermission) (role : String) (e : DataSetEditE),
      (datasetPermEntry? grants role e).isSome ↔
        ((e.gdi_oid ∈ resourceIds grants editTableNames role ∪
            resourceIds grants editTableNames publicRole ∧
          e.data_set_view.gdi_oid ∈ resourceIds grants editTableNames role ∪
            resourceIds grants editTableNames publicRole ∧
          e.data_set_view.data_set.gdi_oid ∈
            resourceIds grants editTableNames role ∪
            resourceIds grants editTableNames publicRole ∧
          e.data_set_view.data_set.data_source.gdi_oid ∈
            resourceIds grants editTableNames role ∪
            resourceIds grants editTableNames publicRole) ∧
         ((e.data_set_view.attributes.filter
            (fun a => a.gdi_oid ∈
              exclusiveResourceIds grants editTableNames role)).map
              (fun a => a.name) ≠ [] ∨
          e.name ∈ writeableDatasets grants role))) := by
  constructor
  · intro rp pub n oid v t
    simp only [collectWmsLayerPermissions, wmsPermDataEntries]
    split
    · rename_i hcond
      exact iff_of_true (by simp) hcond
    · rename_i hcond
      exact iff_of_false (by simp) hcond
  · intro grants role e
    by_cases hrole : role ≠ publicRole
    · simp only [datasetPermEntry?, exclusiveResourceIds, if_pos hrole]
      split
      · rename_i hcond
        exact iff_of_false (by simp) (fun hcontra => hcond hcontra.1)
      · rename_i hcond
        rw [not_not] at hcond
        split
        · rename_i hif
          refine iff_of_true (by simp) ⟨hcond, ?_⟩
          rcases hif with hif | hif
          · exact Or.inl hif
          · exact Or.inr (by simpa using hif)
        · rename_i hif
          refine iff_of_false (by simp) ?_
          rintro ⟨-, hcontra⟩
          apply hif
          rcases hcontra with h | h
          · exact Or.inl h
          · exact Or.inr (by simpa using h)
    · simp only [datasetPermEntry?, exclusiveResourceIds, if_neg hrole]
      split
      · rename_i hcond
        exact iff_of_false (by simp) (fun hcontra => hcond hcontra.1)
      · rename_i hcond
        rw [not_not] at hcond
        split
        · rename_i hif
          refine iff_of_true (by simp) ⟨hcond, ?_⟩
          rcases hif with hif | hif
          · exact Or.inl hif
          · exact Or.inr (by simpa using hif)
        · rename_i hif
          refine iff_of_false (by simp) ?_
          rintro ⟨-, hcontra⟩
          apply hif
          rcases hcontra with h | h
          · exact Or.inl h
          · exact Or.inr (by simpa using h)

/-- A layer's own name heads its subtree name list. -/
theorem name_mem_layerNames (l : Layer) : Layer.name l ∈ layerNames l := by
  cases l <;> simp [Layer.name, layerNames]

/-- The flattened WMS permission walk of a forest is non-empty iff some
tree's walk is non-empty. -/
theorem collectWmsList_ne_nil (rp pub : Finset Nat) (cs : List Layer) :
    collectWmsLayerPermissionsList rp pub cs ≠ [] ↔
      ∃ c ∈ cs, collectWmsLayerPermissions rp pub c ≠ [] := by
  induction cs with
  | nil => simp [collectWmsLayerPermissionsList]
  | cons c cs ih =>
    rw [collectWmsLayerPermissionsList]
    simp only [ne_eq, List.append_eq_nil, not_and, List.mem_cons]
    constructor
    · intro h
      by_cases hc : collectWmsLayerPermissions rp pub c = []
      · obtain ⟨d, hd, hne⟩ := ih.mp (h hc)
        exact ⟨d, Or.inr hd, hne⟩
      · exact ⟨c, Or.inl rfl, hc⟩
    · rintro ⟨d, (rfl | hd), hne⟩
      · intro hc
        exact absurd hc hne
      · intro _
        exact ih.mpr ⟨d, hd, hne⟩

mutual

/-- Names added by a subtree's dataproduct walk occur in the subtree. -/
theorem dpIncludedNames_subset (permitted : Finset Nat) :
    ∀ (l : Layer) (x : String),
      x ∈ dpIncludedNames permitted l → x ∈ layerNames l
  | .group n oid f cs, x => by
    rw [dpIncludedNames, layerNames]
    split
    · intro hx
      rcases Finset.mem_insert.mp hx with rfl | hx
      · exact List.mem_cons_self _ _
      · exact List.mem_cons_of_mem _
          (dpIncludedNamesList_subset permitted cs x hx)
    · intro hx
      exact List.mem_cons_of_mem _
        (dpIncludedNamesList_subset permitted cs x hx)
  | .data n oid v ti t, x => by
    rw [dpIncludedNames, layerNames]
    split
    · intro hx
      simpa using Finset.mem_singleton.mp hx
    · intro hx
      cases Finset.not_mem_empty x hx

/-- Names added by a forest's dataproduct walk occur in the forest. -/
theorem dpIncludedNamesList_subset (permitted : Finset Nat) :
    ∀ (ls : List Layer) (x : String),
      x ∈ dpIncludedNamesList permitted ls → x ∈ layerNamesList ls
  | [], x => by
    rw [dpIncludedNamesList]
    intro hx
    cases Finset.not_mem_empty x hx
  | c :: cs, x => by
    rw [dpIncludedNamesList, layerNamesList]
    intro hx
    rcases Finset.mem_union.mp hx with hx | hx
    · exact List.mem_append_left _ (dpIncludedNames_subset permitted c x hx)
    · exact List.mem_append_right _
        (dpIncludedNamesList_subset permitted cs x hx)

end

/-- Under distinct subtree names, a layer's own name is among the names
its walk adds iff the subtree contains a permitted data layer. -/
theorem dp_name_in_included (permitted : Finset Nat) (l : Layer)
    (hnd : (layerNames l).Nodup) :
    Layer.name l ∈ dpIncludedNames permitted l ↔
      hasPermittedDataDescendant permitted l = true := by
  cases l with
  | group n oid f cs =>
    rw [layerNames] at hnd
    have hnotin : n ∉ layerNamesList cs := (List.nodup_cons.mp hnd).1
    rw [Layer.name, dpIncludedNames, hasPermittedDataDescendant]
    split
    · rename_i hflag
      simp [hflag]
    · rename_i hflag
      constructor
      · intro hx
        exact absurd (dpIncludedNamesList_subset permitted cs n hx) hnotin
      · intro hx
        exact absurd hx hflag
  | data n oid v ti t =>
    rw [Layer.name, dpIncludedNames, hasPermittedDataDescendant]
    split
    · rename_i hp
      simp [hp]
    · rename_i hp
      simp [hp]

mutual

/-- Characterization of the dataproduct permission walk on a tree: under
distinct names disjoint from the incoming set, the walk returns the
incoming set extended by exactly the subtree's included names. -/
theorem dp_walk_eq (permitted : Finset Nat) :
    ∀ (l : Layer) (S : Finset String),
      (∀ x ∈ layerNames l, x ∉ S) → (layerNames l).Nodup →
      collectLayerPermissionsDP permitted l S =
        S ∪ dpIncludedNames permitted l
  | .group n oid f cs, S => by
    intro hS hnd
    rw [layerNames] at hS hnd
    have hS' : ∀ x ∈ layerNamesList cs, x ∉ S := fun x hx =>
      hS x (List.mem_cons_of_mem _ hx)
    have hnd' : (layerNamesList cs).Nodup := (List.nodup_cons.mp hnd).2
    rw [collectLayerPermissionsDP,
      dp_walk_list_eq permitted cs S hS' hnd', dpIncludedNames]
    split
    · simp [Finset.union_insert]
    · simp
  | .data n oid v ti t, S => by
    intro hS hnd
    rw [collectLayerPermissionsDP, dpIncludedNames]
    split
    · simp [Finset.insert_eq, Finset.union_comm]
    · simp

/-- Characterization of the dataproduct permission walk on a forest:
it returns the incoming set extended by the forest's included names,
paired with whether some tree of the forest contributed its root. -/
theorem dp_walk_list_eq (permitted : Finset Nat) :
    ∀ (ls : List Layer) (S : Finset String),
      (∀ x ∈ layerNamesList ls, x ∉ S) → (layerNamesList ls).Nodup →
      collectLayerPermissionsDPList permitted ls S =
        (S ∪ dpIncludedNamesList permitted ls,
         hasPermittedDataDescendantList permitted ls)
  | [], S => by
    intro hS hnd
    rw [collectLayerPermissionsDPList, dpIncludedNamesList,
      hasPermittedDataDescendantList, Finset.union_empty]
  | c :: cs, S => by
    intro hS hnd
    rw [layerNamesList] at hS hnd
    rw [List.nodup_append] at hnd
    obtain ⟨hndc, hndcs, hdisj⟩ := hnd
    have hSc : ∀ x ∈ layerNames c, x ∉ S := fun x hx =>
      hS x (List.mem_append_left _ hx)
    have hScs : ∀ x ∈ layerNamesList cs, x ∉ S := fun x hx =>
      hS x (List.mem_append_right _ hx)
    have h1 : collectLayerPermissionsDP permitted c S =
        S ∪ dpIncludedNames permitted c :=
      dp_walk_eq permitted c S hSc hndc
    have hS1 : ∀ x ∈ layerNamesList cs,
        x ∉ S ∪ dpIncludedNames permitted c := by
      intro x hx
      rw [Finset.mem_union, not_or]
      refine ⟨hScs x hx, fun hc => ?_⟩
      exact hdisj (dpIncludedNames_subset permitted c x hc) hx
    have hb1 : (decide (Layer.name c ∈
        S ∪ dpIncludedNames permitted c)) =
        hasPermittedDataDescendant permitted c := by
      have hnameS : Layer.name c ∉ S := hSc _ (name_mem_layerNames c)
      by_cases hmem : Layer.name c ∈ dpIncludedNames permitted c
      · rw [(dp_name_in_included permitted c hndc).mp hmem]
        simp [hmem]
      · have : ¬ hasPermittedDataDescendant permitted c = true := by
          intro hc
          exact hmem ((dp_name_in_included permitted c hndc).mpr hc)
        rw [Bool.not_eq_true] at this
        rw [this]
        simp [hnameS, hmem]
    rw [collectLayerPermissionsDPList, h1,
      dp_walk_list_eq permitted cs (S ∪ dpIncludedNames permitted c)
        hS1 hndcs,
      dpIncludedNamesList, hasPermittedDataDescendantList]
    rw [Finset.union_assoc, hb1]

end

/-- A name in a member tree occurs in the forest's name list. -/
theorem layerNamesList_mem_of_mem :
    ∀ (cs : List Layer) (c : Layer), c ∈ cs →
      ∀ x ∈ layerNames c, x ∈ layerNamesList cs := by
  intro cs
  induction cs with
  | nil => intro c hc; cases hc
  | cons d ds ih =>
    intro c hc x hx
    rw [layerNamesList]
    rcases List.mem_cons.mp hc with rfl | hc
    · exact List.mem_append_left _ hx
    · exact List.mem_append_right _ (ih c hc x hx)

/-- Under distinct forest names, a tree root's name is among the names
added by the forest walk iff it is among the names added by its own
tree's walk. -/
theorem dpIncludedNamesList_mem_iff (permitted : Finset Nat) :
    ∀ (cs : List Layer), (layerNamesList cs).Nodup →
      ∀ c ∈ cs, ∀ x ∈ layerNames c,
        (x ∈ dpIncludedNamesList permitted cs ↔
          x ∈ dpIncludedNames permitted c) := by
  intro cs
  induction cs with
  | nil => intro _ c hc; cases hc
  | cons d ds ih =>
    intro hnd c hc x hx
    rw [layerNamesList, List.nodup_append] at hnd
    obtain ⟨hndd, hndds, hdisj⟩ := hnd
    rw [dpIncludedNamesList, Finset.mem_union]
    rcases List.mem_cons.mp hc with rfl | hc
    · constructor
      · rintro (h | h)
        · exact h
        · exact absurd (dpIncludedNamesList_subset permitted ds x h)
            (fun hmem => hdisj hx hmem)
      · exact Or.inl
    · constructor
      · rintro (h | h)
        · exact (hdisj (dpIncludedNames_subset permitted d x h)
            (layerNamesList_mem_of_mem ds c hc x hx)).elim
        · exact (ih hndds c hc x hx).mp h
      · intro h
        exact Or.inr ((ih hndds c hc x hx).mpr h)

/-- Some tree of a forest contains a permitted data layer iff the forest
flag is set. -/
theorem hasPermittedList_iff (permitted : Finset Nat) :
    ∀ (cs : List Layer),
      hasPermittedDataDescendantList permitted cs = true ↔
        ∃ c ∈ cs, hasPermittedDataDescendant permitted c = true := by
  intro cs
  induction cs with
  | nil => simp [hasPermittedDataDescendantList]
  | cons c cs ih =>
    rw [hasPermittedDataDescendantList, Bool.or_eq_true, ih]
    constructor
    · rintro (h | ⟨d, hd, hh⟩)
      · exact ⟨c, List.mem_cons_self _ _, h⟩
      · exact ⟨d, List.mem_cons_of_mem _ hd, hh⟩
    · rintro ⟨d, hd, hh⟩
      rcases List.mem_cons.mp hd with rfl | hd
      · exact Or.inl hh
      · exact Or.inr ⟨d, hd, hh⟩

/-- Distinctness of a forest's names gives distinctness within each
member tree. -/
theorem layerNames_nodup_of_mem :
    ∀ (cs : List Layer), (layerNamesList cs).Nodup →
      ∀ c ∈ cs, (layerNames c).Nodup := by
  intro cs
  induction cs with
  | nil => intro _ c hc; cases hc
  | cons d ds ih =>
    intro hnd c hc
    rw [layerNamesList, List.nodup_append] at hnd
    rcases List.mem_cons.mp hc with rfl | hc
    · exact hnd.1
    · exact ih hnd.2.1 c hc

/-- Claim C3: in the permission-filtered walks a group appears in the
output iff at least one recursively filtered descendant appears: in the
WMS walk the group entry is emitted iff some child's filtered list is
non-empty (with the two-children example and the granted-but-empty
group example), and in the dataproduct walk — whose output is a name
set — under distinct layer names a group's name is added iff some
child's name is added. -/
theorem group_filtered_iff_descendant :
    (∀ (rp pub : Finset Nat) (n : String) (oid : Nat) (f : Bool)
        (cs : List Layer),
      (⟨n, none, none⟩ : WmsPermEntry) ∈
          collectWmsLayerPermissions rp pub (Layer.group n oid f cs) ↔
        ∃ c ∈ cs, collectWmsLayerPermissions rp pub c ≠ []) ∧
    collectWmsLayerPermissions {1, 2, 3, 4} ∅
      (Layer.group "g" 9 false
        [Layer.data "a" 1 ⟨2, 3, 4, "database", []⟩ none 0,
         Layer.data "b" 9 ⟨2, 3, 4, "database", []⟩ none 0]) =
      [⟨"g", none, none⟩, ⟨"a", some ["geometry"], none⟩] ∧
    collectWmsLayerPermissions {9} ∅
      (Layer.group "g" 9 false
        [Layer.data "a" 1 ⟨2, 3, 4, "database", []⟩ none 0]) = [] ∧
    (∀ (permitted : Finset Nat) (S : Finset String) (n : String)
        (oid : Nat) (f : Bool) (cs : List Layer),
      (∀ x ∈ layerNames (Layer.group n oid f cs), x ∉ S) →
      (layerNames (Layer.group n oid f cs)).Nodup →
      (n ∈ collectLayerPermissionsDP permitted (Layer.group n oid f cs) S ↔
        ∃ c ∈ cs, Layer.name c ∈
          collectLayerPermissionsDP permitted (Layer.group n oid f cs) S)) := by
  refine ⟨?_, by decide, by decide, ?_⟩
  · intro rp pub n oid f cs
    simp only [collectWmsLayerPermissions]
    split
    · rename_i h
      exact iff_of_true (List.mem_cons_self _ _)
        ((collectWmsList_ne_nil rp pub cs).mp h)
    · rename_i h
      exact iff_of_false (by simp)
        (fun hc => h ((collectWmsList_ne_nil rp pub cs).mpr hc))
  · intro permitted S n oid f cs hS hnd
    have hout := dp_walk_eq permitted (Layer.group n oid f cs) S hS hnd
    rw [layerNames] at hS hnd
    have hnotn : n ∉ layerNamesList cs := (List.nodup_cons.mp hnd).1
    have hnd' : (layerNamesList cs).Nodup := (List.nodup_cons.mp hnd).2
    rw [hout, dpIncludedNames]
    by_cases hF : hasPermittedDataDescendantList permitted cs = true
    · rw [if_pos hF]
      refine iff_of_true (by simp) ?_
      obtain ⟨c, hc, hcp⟩ := (hasPermittedList_iff permitted cs).mp hF
      have hndc := layerNames_nodup_of_mem cs hnd' c hc
      have h1 : Layer.name c ∈ dpIncludedNames permitted c :=
        (dp_name_in_included permitted c hndc).mpr hcp
      have h2 : Layer.name c ∈ dpIncludedNamesList permitted cs :=
        (dpIncludedNamesList_mem_iff permitted cs hnd' c hc _
          (name_mem_layerNames c)).mpr h1
      exact ⟨c, hc, Finset.mem_union_right _ (Finset.mem_insert_of_mem h2)⟩
    · rw [if_neg hF]
      refine iff_of_false ?_ ?_
      · rw [Finset.mem_union, not_or]
        exact ⟨hS n (List.mem_cons_self _ _),
          fun hc => hnotn (dpIncludedNamesList_subset permitted cs n hc)⟩
      · rintro ⟨c, hc, hcmem⟩
        rcases Finset.mem_union.mp hcmem with h | h
        · exact hS (Layer.name c)
            (List.mem_cons_of_mem _
              (layerNamesList_mem_of_mem cs c hc _ (name_mem_layerNames c)))
            h
        · have hndc := layerNames_nodup_of_mem cs hnd' c hc
          have h1 := (dpIncludedNamesList_mem_iff permitted cs hnd' c hc _
            (name_mem_layerNames c)).mp h
          have h2 := (dp_name_in_included permitted c hndc).mp h1
          exact hF ((hasPermittedList_iff permitted cs).mpr ⟨c, hc, h2⟩)

/-- Witness for C3: the dataproduct-walk part applied to a group with one
permitted data child. -/
theorem group_filtered_iff_descendant_witness :
    ("g" ∈ collectLayerPermissionsDP {1}
        (Layer.group "g" 7 false
          [Layer.data "a" 1 ⟨2, 3, 4, "database", []⟩ none 0]) ∅ ↔
      ∃ c ∈ [Layer.data "a" 1 ⟨2, 3, 4, "database", []⟩ none 0],
        Layer.name c ∈ collectLayerPermissionsDP {1}
          (Layer.group "g" 7 false
            [Layer.data "a" 1 ⟨2, 3, 4, "database", []⟩ none 0]) ∅) :=
  group_filtered_iff_descendant.2.2.2 {1} ∅ "g" 7 false
    [Layer.data "a" 1 ⟨2, 3, 4, "database", []⟩ none 0]
    (by decide) (by decide)

/-- `mapOption` respects pointwise refinement of its function on the
successful results. -/
theorem mapOption_congr_some {α β : Type} (f g : α → Option β) :
    ∀ (l : List α), (∀ a ∈ l, ∀ b, f a = some b → g a = some b) →
      ∀ bs, mapOption f l = some bs → mapOption g l = some bs := by
  intro l
  induction l with
  | nil =>
    intro _ bs h
    exact h
  | cons a as ih =>
    intro hfg bs h
    rw [mapOption] at h
    cases hfa : f a with
    | none => rw [hfa] at h; cases h
    | some b =>
      rw [hfa] at h
      cases hfas : mapOption f as with
      | none => rw [hfas] at h; cases h
      | some bs' =>
        rw [hfas] at h
        rw [mapOption, hfg a (List.mem_cons_self _ _) b hfa,
          ih (fun x hx => hfg x (List.mem_cons_of_mem _ hx)) bs' hfas]
        exact h

/-- More fuel never changes a successful walk result. -/
theorem walkFuel_succ_mono {α σ β : Type} (C : α → List α) (st : σ → α → σ)
    (cb : α → σ → List (α × β) → β) :
    ∀ (n : Nat) (s : σ) (v : α) (b : β),
      walkFuel C st cb n s v = some b →
      walkFuel C st cb (n + 1) s v = some b := by
  intro n
  induction n with
  | zero =>
    intro s v b h
    cases h
  | succ n ih =>
    intro s v b h
    rw [walkFuel] at h
    cases hmo : mapOption (walkFuel C st cb n (st s v)) (C v) with
    | none => rw [hmo] at h; cases h
    | some rs =>
      rw [hmo] at h
      rw [walkFuel,
        mapOption_congr_some (walkFuel C st cb n (st s v))
          (walkFuel C st cb (n + 1) (st s v)) (C v)
          (fun c _ b hb => ih (st s v) c b hb) rs hmo]
      exact h

/-- Fuel monotonicity. -/
theorem walkFuel_mono {α σ β : Type} (C : α → List α) (st : σ → α → σ)
    (cb : α → σ → List (α × β) → β) :
    ∀ (n m : Nat), n ≤ m → ∀ (s : σ) (v : α) (b : β),
      walkFuel C st cb n s v = some b → walkFuel C st cb m s v = some b := by
  intro n m hnm
  induction hnm with
  | refl => exact fun s v b h => h
  | step hm ih =>
    intro s v b h
    exact walkFuel_succ_mono C st cb _ s v b (ih s v b h)

/-- A common sufficient fuel for finitely many start nodes. -/
theorem exists_uniform_fuel {α σ β : Type} (C : α → List α) (st : σ → α → σ)
    (cb : α → σ → List (α × β) → β) :
    ∀ (l : List α) (s : σ),
      (∀ c ∈ l, ∃ n, (walkFuel C st cb n s c).isSome) →
      ∃ N, ∀ c ∈ l, (walkFuel C st cb N s c).isSome := by
  intro l s
  induction l with
  | nil => exact fun _ => ⟨0, fun c hc => absurd hc (List.not_mem_nil c)⟩
  | cons a as ih =>
    intro h
    obtain ⟨na, hna⟩ := h a (List.mem_cons_self _ _)
    obtain ⟨N, hN⟩ := ih (fun c hc => h c (List.mem_cons_of_mem _ hc))
    refine ⟨max na N, fun c hc => ?_⟩
    rcases List.mem_cons.mp hc with rfl | hc
    · obtain ⟨b, hb⟩ := Option.isSome_iff_exists.mp hna
      rw [walkFuel_mono C st cb na (max na N) (Nat.le_max_left _ _) s c b hb]
      rfl
    · obtain ⟨b, hb⟩ := Option.isSome_iff_exists.mp (hN c hc)
      rw [walkFuel_mono C st cb N (max na N) (Nat.le_max_right _ _) s c b hb]
      rfl

/-- `mapOption` succeeds when the function succeeds on every element. -/
theorem mapOption_isSome {α β : Type} (f : α → Option β) :
    ∀ (l : List α), (∀ a ∈ l, (f a).isSome) → (mapOption f l).isSome := by
  intro l
  induction l with
  | nil => exact fun _ => rfl
  | cons a as ih =>
    intro h
    obtain ⟨b, hb⟩ := Option.isSome_iff_exists.mp
      (h a (List.mem_cons_self _ _))
    obtain ⟨bs, hbs⟩ := Option.isSome_iff_exists.mp
      (ih (fun x hx => h x (List.mem_cons_of_mem _ hx)))
    rw [mapOption, hb, hbs]
    rfl

/-- The fuel walker terminates from every start node and environment when
the recursion relation is well-founded. -/
theorem walkFuel_total {α σ β : Type} (C : α → List α) (st : σ → α → σ)
    (cb : α → σ → List (α × β) → β)
    (hwf : WellFounded (fun c p : α => c ∈ C p)) :
    ∀ (v : α) (s : σ), ∃ n, (walkFuel C st cb n s v).isSome := by
  intro v
  refine @WellFounded.induction α (fun c p : α => c ∈ C p) hwf
    (fun v => ∀ s : σ, ∃ n, (walkFuel C st cb n s v).isSome) v ?_
  intro x ih s
  obtain ⟨N, hN⟩ := exists_uniform_fuel C st cb (C x) (st s x)
    (fun c hc => ih c hc (st s x))
  refine ⟨N + 1, ?_⟩
  rw [walkFuel]
  obtain ⟨rs, hrs⟩ := Option.isSome_iff_exists.mp
    (mapOption_isSome (walkFuel C st cb N (st s x)) (C x) hN)
  rw [hrs]
  rfl

/-- A finite acyclic relation is well-founded. -/
theorem wf_of_acyclic {α : Type} [Finite α] (r : α → α → Prop)
    (h : ∀ v, ¬ Relation.TransGen r v v) : WellFounded r :=
  have _ : IsTrans α (Relation.TransGen r) :=
    ⟨fun _ _ _ hab hbc => Relation.TransGen.trans hab hbc⟩
  have _ : IsIrrefl α (Relation.TransGen r) := ⟨h⟩
  Subrelation.wf (fun hxy => Relation.TransGen.single hxy)
    (Finite.wellFounded_of_trans_of_irrefl _)

/-- Child membership matches the edge table. -/
theorem mem_graphChildren {α : Type} [DecidableEq α] (G : LayerGraph α)
    (c p : α) : c ∈ graphChildren G p ↔ (p, c) ∈ G.edges := by
  rw [graphChildren]
  constructor
  · intro hc
    obtain ⟨e, he, hec⟩ := List.mem_map.mp hc
    obtain ⟨hee, hep⟩ := List.mem_filter.mp he
    have heq : e = (p, c) := by
      rcases e with ⟨e1, e2⟩
      simp only [decide_eq_true_eq] at hep
      have h2 : e2 = c := hec
      rw [hep, h2]
    exact heq ▸ hee
  · intro hc
    exact List.mem_map.mpr ⟨(p, c), List.mem_filter.mpr ⟨hc, by simp⟩, rfl⟩

/-- Parent membership matches the edge table. -/
theorem mem_graphParents {α : Type} [DecidableEq α] (G : LayerGraph α)
    (c p : α) : c ∈ graphParents G p ↔ (c, p) ∈ G.edges := by
  rw [graphParents]
  constructor
  · intro hc
    obtain ⟨e, he, hec⟩ := List.mem_map.mp hc
    obtain ⟨hee, hep⟩ := List.mem_filter.mp he
    have heq : e = (c, p) := by
      rcases e with ⟨e1, e2⟩
      simp only [decide_eq_true_eq] at hep
      have h1 : e1 = c := hec
      rw [hep, h1]
    exact heq ▸ hee
  · intro hc
    exact List.mem_map.mpr ⟨(c, p), List.mem_filter.mpr ⟨hc, by simp⟩, rfl⟩

/-- Claim C10: the structural walk, the flattening walk, the
permission-filtered walk and the parent-chain walk all terminate
(return a result for some finite fuel) from every node, over every
finite parent/child edge relation whose child-of relation is acyclic;
the walkers carry no visited-id set, so this acyclicity is exactly the
precondition used. -/
theorem traversals_terminate_on_acyclic {α : Type} [Finite α]
    [DecidableEq α] (G : LayerGraph α) (root v : α)
    (hacyc : ∀ w, ¬ Relation.TransGen
      (fun c p : α => (p, c) ∈ G.edges) w w) :
    (∀ fac : Bool, ∃ n, (collectWmsLayersFuel G n fac v).isSome) ∧
    (∃ n, (collectWfsLayersFuel G n () v).isSome) ∧
    (∀ rp pub : Finset Nat, ∃ n,
      (collectWmsLayerPermissionsFuel G rp pub n () v).isSome) ∧
    (∃ n, (layerInOwsFuel G root n () v).isSome) := by
  have hwf0 : WellFounded (fun c p : α => (p, c) ∈ G.edges) :=
    wf_of_acyclic _ hacyc
  have hwfC : WellFounded (fun c p : α => c ∈ graphRecChildren G p) := by
    refine Subrelation.wf ?_ hwf0
    intro x y hxy
    rw [graphRecChildren] at hxy
    split at hxy
    · exact (mem_graphChildren G x y).mp hxy
    · cases hxy
  have hacyc1 : ∀ w, ¬ Relation.TransGen
      (fun c p : α => (c, p) ∈ G.edges) w w := by
    intro w hw
    exact hacyc w (Relation.transGen_swap.mp hw)
  have hwfP : WellFounded (fun c p : α => c ∈ graphParents G p) := by
    refine Subrelation.wf ?_ (wf_of_acyclic _ hacyc1)
    intro x y hxy
    exact (mem_graphParents G x y).mp hxy
  exact ⟨fun fac => walkFuel_total _ _ _ hwfC v fac,
    walkFuel_total _ _ _ hwfC v (),
    fun rp pub => walkFuel_total _ _ _ hwfC v (),
    walkFuel_total _ _ _ hwfP v ()⟩

/-- Witness for C10 on a concrete one-node graph with no edges. -/
theorem traversals_terminate_on_acyclic_witness :
    (∀ fac : Bool, ∃ n, (collectWmsLayersFuel
      (⟨fun _ => ⟨true, "root", 0, none, false, ⟨0, 0, 0, "database", []⟩,
          none, 0, none⟩, []⟩ : LayerGraph (Fin 1)) n fac 0).isSome) ∧
    (∃ n, (collectWfsLayersFuel
      (⟨fun _ => ⟨true, "root", 0, none, false, ⟨0, 0, 0, "database", []⟩,
          none, 0, none⟩, []⟩ : LayerGraph (Fin 1)) n () 0).isSome) ∧
    (∀ rp pub : Finset Nat, ∃ n, (collectWmsLayerPermissionsFuel
      (⟨fun _ => ⟨true, "root", 0, none, false, ⟨0, 0, 0, "database", []⟩,
          none, 0, none⟩, []⟩ : LayerGraph (Fin 1)) rp pub n () 0).isSome) ∧
    (∃ n, (layerInOwsFuel
      (⟨fun _ => ⟨true, "root", 0, none, false, ⟨0, 0, 0, "database", []⟩,
          none, 0, none⟩, []⟩ : LayerGraph (Fin 1)) 0 n () 0).isSome) :=
  traversals_terminate_on_acyclic
    (⟨fun _ => ⟨true, "root", 0, none, false, ⟨0, 0, 0, "database", []⟩,
        none, 0, none⟩, []⟩ : LayerGraph (Fin 1)) 0 0
    (by
      intro w hw
      cases hw with
      | single h => exact absurd h (List.not_mem_nil _)
      | tail hw2 h => exact absurd h (List.not_mem_nil _))

end QWC
